import Mathlib

/-!
# Verification of `slack-wipe`

A shallow embedding in Lean 4 of the `slack-wipe` CLI tool (Go, two source
variants: `main.go` and an unnamed variant adding IM/MPIM support).  The tool
authenticates against a chat API, resolves a channel, paginates through
search / history / file-listing endpoints to collect the caller's own
content, prompts for confirmation, and issues per-item delete / update calls
under ticker-based rate limits.

Strings are modelled at the Unicode code-point level (`Rune := Nat`,
Go strings as `List Rune` or `List Char` where convenient); the remote API is
modelled as an explicit response function (page number / cursor to
`Except Err response`); unbounded `for` loops driven by remote data are
modelled with explicit fuel, where running out of fuel yields `none`
(non-termination marker) and every theorem supplies enough fuel.  Each
network-touching function also returns the list of events it performs
(ticker receives and API calls), used for the rate-limit claims.
-/

namespace SlackWipe

/-- Errors returned by the remote API, modelled as opaque strings. -/
abbrev Err := String

/-- A Unicode code point (Go `rune`). -/
abbrev Rune := Nat

/-! ## Redaction (`redactTransformer`, `redact`)

Source (`main.go:368-376`):
```go
redactTransformer = runes.Map(func(r rune) rune {
    if unicode.IsSpace(r) || unicode.IsPunct(r) {
        return r
    }
    return config.RedactMarker
})
redact = redactTransformer.String
```
`runes.Map(f).String` applies `f` to every code point of the string.
`unicode.IsSpace` / `unicode.IsPunct` are external library classifiers; they
are taken as parameters `isSpace isPunct : Rune → Bool`. -/

/-- `runes.Map f` applied to a string viewed as its code-point sequence. -/
def runesMapString (f : Rune → Rune) (s : List Rune) : List Rune :=
  s.map f

/-- The per-rune function passed to `runes.Map` in `redactTransformer`. -/
def redactRune (isSpace isPunct : Rune → Bool) (marker : Rune) (r : Rune) : Rune :=
  if isSpace r || isPunct r then r else marker

/-- `redact`: apply the redact transformer to a whole string. -/
def redact (isSpace isPunct : Rune → Bool) (marker : Rune) (s : List Rune) : List Rune :=
  runesMapString (redactRune isSpace isPunct marker) s

/-- `config.RedactMarker`'s default, set in `init`: `'█'` = U+2588. -/
def defaultRedactMarker : Rune := 0x2588

/-! ## Events

Every network-touching function is embedded so that, besides its result, it
returns the sequence of events it performs, in program order: receives from
one of the rate-limit tickers (`tick t`, where `t` is the tier: tier 2 =
20/min, tier 3 = 50/min, tier 4 = 100/min) and remote API calls. -/

/-- A remote API call, tagged with its distinguishing arguments. -/
inductive ApiCall : Type where
  | getConversations (cursor : String)
  | getUsersInConversation (cursor : String)
  | authTest
  | getUsers
  | searchMessages (page : Nat)
  | getConversationHistory (cursor : String)
  | getFiles (page : Nat)
  | deleteMessage (channelID timestamp : String)
  | deleteFile (fileID : String)
  | updateMessage (channelID timestamp : String) (text : List Rune)
  deriving DecidableEq, Repr

/-- An observable event: a receive from a rate-limit ticker, or an API call. -/
inductive Event : Type where
  | tick (tier : Nat)
  | call (c : ApiCall)
  deriving DecidableEq, Repr

/-- `rateGatedAux prevTick evs`: every `call` in `evs` is immediately
preceded by a `tick`; `prevTick` records whether the event just before `evs`
was a tick. -/
def rateGatedAux : Bool → List Event → Bool
  | _, [] => true
  | prevTick, Event.call _ :: rest => prevTick && rateGatedAux false rest
  | _, Event.tick _ :: rest => rateGatedAux true rest

/-- A trace is rate-gated when every API call in it is immediately preceded
by a receive from a rate-limit ticker. -/
def rateGated (tr : List Event) : Bool := rateGatedAux false tr

/-! ## Data model

The slices of the `slack` library types that this program reads. -/

/-- The fields of `slack.SearchMessage` the program uses. -/
structure SearchMessage : Type where
  channel : String
  user : String
  timestamp : String
  text : List Rune
  deriving DecidableEq, Repr

/-- The fields of `slack.File` the program uses (`ID`; `User` is the owner,
read only by the claims, never by the program). -/
structure File : Type where
  id : String
  user : String
  deriving DecidableEq, Repr

/-- A `slack.SearchMessages` response: the page's matches and the reported
total page count (`resp.PageCount`). -/
structure SearchResp : Type where
  pageMatches : List SearchMessage
  pageCount : Nat
  deriving DecidableEq, Repr

/-- A `slack.GetFiles` response: the page's files and the `Paging` pointer
(`none` models a nil `*slack.Paging`; `some p` models `paging.Pages = p`). -/
structure FileResp : Type where
  files : List File
  paging : Option Nat
  deriving DecidableEq, Repr

/-! ## Message fetching (`fetchMessages`, `main.go:223-258`)

```go
params := slack.NewSearchParameters()          // Page = 1
<-rateLimitTier2
resp, err := state.RTM.SearchMessages(query, params)
if err != nil { return err }
messages := resp.Matches
pageMax := resp.PageCount
params.Page++
for params.Page <= pageMax {
    <-rateLimitTier2
    resp, err := state.RTM.SearchMessages(query, params)
    if err != nil { return err }
    messages = append(messages, resp.Matches...)
    pageMax = resp.PageCount
    params.Page++
}
var userMessages []slack.SearchMessage
for _, m := range messages {
    if m.User == state.UserID { userMessages = append(userMessages, m) }
}
state.UserMessages = userMessages
```
The remote is `api : Nat → Except Err SearchResp` (page number to response).
The `for` loop is fuelled: `none` marks fuel exhaustion. -/

/-- The `for params.Page <= pageMax` loop of `fetchMessages`. -/
def fetchMessagesLoop (api : Nat → Except Err SearchResp) :
    Nat → Nat → Nat → List SearchMessage →
    Option (Except Err (List SearchMessage)) × List Event
  | 0, page, pageMax, acc =>
    if page ≤ pageMax then (none, []) else (some (Except.ok acc), [])
  | fuel + 1, page, pageMax, acc =>
    if page ≤ pageMax then
      match api page with
      | Except.error e =>
          (some (Except.error e), [Event.tick 2, Event.call (ApiCall.searchMessages page)])
      | Except.ok resp =>
          let r := fetchMessagesLoop api fuel (page + 1) resp.pageCount (acc ++ resp.pageMatches)
          (r.1, Event.tick 2 :: Event.call (ApiCall.searchMessages page) :: r.2)
    else (some (Except.ok acc), [])

/-- `fetchMessages`: first search call at page 1, pagination loop, then the
filter keeping only messages whose `User` equals the authenticated user. -/
def fetchMessages (api : Nat → Except Err SearchResp) (userID : String)
    (fuel : Nat) : Option (Except Err (List SearchMessage)) × List Event :=
  match api 1 with
  | Except.error e =>
      (some (Except.error e), [Event.tick 2, Event.call (ApiCall.searchMessages 1)])
  | Except.ok resp =>
      let r := fetchMessagesLoop api fuel 2 resp.pageCount resp.pageMatches
      (r.1.map (fun res => res.map (fun msgs => msgs.filter (fun m => m.user == userID))),
       Event.tick 2 :: Event.call (ApiCall.searchMessages 1) :: r.2)

/-! ## File fetching (`fetchFiles`, `main.go:260-294`)

```go
params := slack.NewGetFilesParameters()        // Page = 1
params.User = state.UserID
params.Channel = state.ChannelID
<-rateLimitTier3
files, paging, err := state.RTM.GetFiles(params)
if err != nil { return err }
pageMax := 1
if paging != nil { pageMax = paging.Pages }
params.Page++
for params.Page <= pageMax {
    <-rateLimitTier3
    filesPage, paging, err := state.RTM.GetFiles(params)
    if err != nil { return err }
    files = append(files, filesPage...)
    if paging != nil { pageMax = paging.Pages }
    params.Page++
}
state.UserFiles = files
```
Note: the `User`/`Channel` restriction is only a request parameter; the
responses are stored unfiltered. -/

/-- The `for params.Page <= pageMax` loop of `fetchFiles`. -/
def fetchFilesLoop (api : Nat → Except Err FileResp) :
    Nat → Nat → Nat → List File →
    Option (Except Err (List File)) × List Event
  | 0, page, pageMax, acc =>
    if page ≤ pageMax then (none, []) else (some (Except.ok acc), [])
  | fuel + 1, page, pageMax, acc =>
    if page ≤ pageMax then
      match api page with
      | Except.error e =>
          (some (Except.error e), [Event.tick 3, Event.call (ApiCall.getFiles page)])
      | Except.ok resp =>
          let r := fetchFilesLoop api fuel (page + 1)
            (match resp.paging with | some p => p | none => pageMax)
            (acc ++ resp.files)
          (r.1, Event.tick 3 :: Event.call (ApiCall.getFiles page) :: r.2)
    else (some (Except.ok acc), [])

/-- `fetchFiles`: first `GetFiles` call at page 1, then the pagination loop;
the collected files are stored with no ownership filter. -/
def fetchFiles (api : Nat → Except Err FileResp) (fuel : Nat) :
    Option (Except Err (List File)) × List Event :=
  match api 1 with
  | Except.error e =>
      (some (Except.error e), [Event.tick 3, Event.call (ApiCall.getFiles 1)])
  | Except.ok resp =>
      let r := fetchFilesLoop api fuel 2
        (match resp.paging with | some p => p | none => 1) resp.files
      (r.1, Event.tick 3 :: Event.call (ApiCall.getFiles 1) :: r.2)

/-! ## Cursor-driven pagination loops

`channelIDForChannelName`, `channelIDForUserID`, `channelForIM` (via
`GetConversations`, tier 2) and `usersInConversation` (via
`GetUsersInConversation`, tier 4) all share the same do-while shape:

```go
first := true; cursor := ""
for first || cursor != "" {
    first = false
    <-rateLimit...
    more, nextCursor, err := ...(cursor)
    if err != nil { return err }
    acc = append(acc, more...)
    cursor = nextCursor
}
```
The remote is `api : String → Except Err (List α × String)` mapping a cursor
to a page and the next cursor. -/

/-- The shared do-while cursor loop: one gated call per iteration, stopping
when the returned next cursor is empty. -/
def cursorLoop {α : Type} (tier : Nat) (mk : String → ApiCall)
    (api : String → Except Err (List α × String)) :
    Nat → String → List α → Option (Except Err (List α)) × List Event
  | 0, _, _ => (none, [])
  | fuel + 1, cursor, acc =>
    match api cursor with
    | Except.error e => (some (Except.error e), [Event.tick tier, Event.call (mk cursor)])
    | Except.ok (xs, next) =>
      if next == "" then (some (Except.ok (acc ++ xs)), [Event.tick tier, Event.call (mk cursor)])
      else
        let r := cursorLoop tier mk api fuel next (acc ++ xs)
        (r.1, Event.tick tier :: Event.call (mk cursor) :: r.2)

/-- The fields of `slack.Channel` the program reads. -/
structure Channel : Type where
  id : String
  name : String
  user : String
  isIM : Bool
  isMpIM : Bool
  deriving DecidableEq, Repr

/-- The `GetConversations` accumulation loop shared by the channel-resolution
functions (the subsequent channel search is pure and makes no calls). -/
def getAllConversations (api : String → Except Err (List Channel × String))
    (fuel : Nat) : Option (Except Err (List Channel)) × List Event :=
  cursorLoop 2 ApiCall.getConversations api fuel "" []

/-- `usersInConversation` (unnamed variant): paginate through
`GetUsersInConversation` under the tier-4 ticker. -/
def usersInConversation (api : String → Except Err (List String × String))
    (fuel : Nat) : Option (Except Err (List String)) × List Event :=
  cursorLoop 4 ApiCall.getUsersInConversation api fuel "" []

/-! ## `fetchUserInfo` and `fetchUsers` -/

/-- The fields of the `AuthTest` response the program reads. -/
structure AuthIdentity : Type where
  user : String
  userID : String
  deriving DecidableEq, Repr

/-- `fetchUserInfo`: one `AuthTest` call behind the tier-3 ticker, storing
`state.User` and `state.UserID`. -/
def fetchUserInfo (api : Except Err AuthIdentity) :
    Except Err (String × String) × List Event :=
  (api.map (fun idn => (idn.user, idn.userID)),
   [Event.tick 3, Event.call ApiCall.authTest])

/-- The fields of `slack.User` the program reads
(`u.ID` and `u.Profile.DisplayName`). -/
structure User : Type where
  id : String
  displayName : String
  deriving DecidableEq, Repr

/-- `fetchUsers` (unnamed variant, lines 287-297): a single `GetUsers` call
with NO rate-limit receive before it, building the display-name-keyed user
map (modelled as an association list in insertion order):
```go
func fetchUsers() error {
    users, err := state.RTM.GetUsers()
    if err != nil { return err }
    state.Users = make(map[string]slack.User, len(users))
    for _, u := range users { state.Users[u.Profile.DisplayName] = u }
    return nil
}
``` -/
def fetchUsers (api : Except Err (List User)) :
    Except Err (List (String × User)) × List Event :=
  (api.map (fun us => us.map (fun u => (u.displayName, u))),
   [Event.call ApiCall.getUsers])

/-! ## `fetchDirectMessages` (unnamed variant, lines 299-336)

```go
params := &slack.GetConversationHistoryParameters{ChannelID: state.Channel.ID}
<-rateLimitTier2
hist, err := state.RTM.GetConversationHistory(params)
if err != nil { return err }
var userMessages []slack.SearchMessage
for {
    for _, m := range hist.Messages {
        if m.User == state.UserID {
            userMessages = append(userMessages, slack.SearchMessage{...})
        }
    }
    nextCursor := hist.ResponseMetaData.NextCursor
    if nextCursor == "" || !hist.HasMore { break }
    params.Cursor = nextCursor
    <-rateLimitTier2
    hist, err = state.RTM.GetConversationHistory(params)
    if err != nil { return err }
}
state.UserMessages = userMessages
``` -/

/-- The fields of a history message the program reads. -/
structure HistoryMessage : Type where
  user : String
  timestamp : String
  text : List Rune
  deriving DecidableEq, Repr

/-- A `GetConversationHistory` response. -/
structure HistoryResp : Type where
  messages : List HistoryMessage
  nextCursor : String
  hasMore : Bool
  deriving DecidableEq, Repr

/-- The inner `for _, m := range hist.Messages` filter: keep the
authenticated user's messages, rebuilt as `SearchMessage`s carrying the
resolved channel's ID. -/
def processHistory (channelID userID : String) (msgs : List HistoryMessage) :
    List SearchMessage :=
  msgs.filterMap fun m =>
    if m.user == userID then
      some (SearchMessage.mk channelID m.user m.timestamp m.text)
    else none

/-- The outer `for {}` loop of `fetchDirectMessages`. -/
def fetchDirectMessagesLoop (api : String → Except Err HistoryResp)
    (channelID userID : String) :
    Nat → HistoryResp → List SearchMessage →
    Option (Except Err (List SearchMessage)) × List Event
  | fuel, hist, acc =>
    let acc' := acc ++ processHistory channelID userID hist.messages
    if hist.nextCursor == "" || !hist.hasMore then (some (Except.ok acc'), [])
    else
      match fuel with
      | 0 => (none, [])
      | fuel + 1 =>
        match api hist.nextCursor with
        | Except.error e =>
            (some (Except.error e),
             [Event.tick 2, Event.call (ApiCall.getConversationHistory hist.nextCursor)])
        | Except.ok hist' =>
            let r := fetchDirectMessagesLoop api channelID userID fuel hist' acc'
            (r.1, Event.tick 2 :: Event.call (ApiCall.getConversationHistory hist.nextCursor)
              :: r.2)

/-- `fetchDirectMessages`: first history call with the empty cursor, then the
cursor loop; only the authenticated user's messages are accumulated. -/
def fetchDirectMessages (api : String → Except Err HistoryResp)
    (channelID userID : String) (fuel : Nat) :
    Option (Except Err (List SearchMessage)) × List Event :=
  match api "" with
  | Except.error e =>
      (some (Except.error e),
       [Event.tick 2, Event.call (ApiCall.getConversationHistory "")])
  | Except.ok hist =>
      let r := fetchDirectMessagesLoop api channelID userID fuel hist []
      (r.1, Event.tick 2 :: Event.call (ApiCall.getConversationHistory "") :: r.2)

/-! ## Approval prompt (`approvalPrompt`, `main.go:144-153`)

```go
r := bufio.NewReader(os.Stdin)
fmt.Printf(`%s (only the answer "yes" will be accepted): `, prompt)
answer, err := r.ReadString('\n')
if err != nil { log.Fatal(err) }
answer = strings.ToLower(strings.TrimSpace(answer))
return answer == "yes"
```
`strings.TrimSpace` / `strings.ToLower` use the Unicode tables; they are
parameters `isSpace : Char → Bool` and `lower : Char → Char` here.  The
answer line (including its trailing newline, which `TrimSpace` removes) is
the `answer : List Char` input. -/

/-- `strings.TrimSpace`: drop leading and trailing whitespace. -/
def trimSpace (isSpace : Char → Bool) (s : List Char) : List Char :=
  ((s.dropWhile isSpace).reverse.dropWhile isSpace).reverse

/-- `strings.ToLower`: lowercase every character. -/
def toLower (lower : Char → Char) (s : List Char) : List Char :=
  s.map lower

/-- `approvalPrompt`'s return value on a given stdin line. -/
def approvalPrompt (isSpace : Char → Bool) (lower : Char → Char)
    (answer : List Char) : Bool :=
  toLower lower (trimSpace isSpace answer) == String.toList "yes"

/-- Whether `fetchAndWipeMessages` / `fetchAndWipeFiles` shows the prompt at
all: only when `-auto-approve` is not set. -/
def promptShown (autoApprove : Bool) : Bool := !autoApprove

/-- Outcome of the confirmation gate in `fetchAndWipeMessages` /
`fetchAndWipeFiles` (`main.go:114-118`): `aborted` models
`log.Fatalf("aborted")`, which terminates the process. -/
inductive WipePhase : Type where
  | entered
  | aborted
  deriving DecidableEq, Repr

/-- The gate:
```go
if !config.AutoApprove {
    if !approvalPrompt(...) { log.Fatalf("aborted") }
}
// ... delete/update phase
``` -/
def wipeGate (autoApprove approved : Bool) : WipePhase :=
  if !autoApprove then
    if !approved then WipePhase.aborted else WipePhase.entered
  else WipePhase.entered

/-- The confirmation gate of `fetchAndWipeMessages` with the prompt answer
plugged in (the prompt is only read when `autoApprove` is false). -/
def fetchAndWipeGate (autoApprove : Bool) (isSpace : Char → Bool)
    (lower : Char → Char) (answer : List Char) : WipePhase :=
  wipeGate autoApprove (approvalPrompt isSpace lower answer)

/-- The events of the whole fetch-and-wipe run after fetching: aborting via
`log.Fatalf` terminates the process, so no delete/update phase event occurs;
otherwise the phase's events follow. -/
def fetchAndWipeEvents (autoApprove : Bool) (isSpace : Char → Bool)
    (lower : Char → Char) (answer : List Char) (phaseEvents : List Event) :
    List Event :=
  match fetchAndWipeGate autoApprove isSpace lower answer with
  | WipePhase.aborted => []
  | WipePhase.entered => phaseEvents

/-! ## The delete / redact fan-out

`deleteAllUserMessages` (`main.go:296-320`), `redactAllUserMessages`
(`main.go:341-366`) and `deleteAllUserFiles` (`main.go:322-339`) share one
shape: iterate over the collected items, issue one gated call per item,
append any failure to an `errors` slice, and afterwards return
`fmt.Errorf("%d errors (e.g. %v)", len(errors), errors[0])` when the slice
is non-empty, `nil` otherwise.  The message/redact versions launch one
goroutine per item with an unsynchronized `errors = append(errors, err)`.

`wipeLoop` below is the serialized semantics — each goroutine runs to
completion before the next starts, so error appends are lossless.  It is
faithful to the sequential `deleteAllUserFiles` as written, and to the two
concurrent functions only for properties invariant under interleaving (the
set of calls issued, whether `errors` ends non-empty, the per-item remote
updates).  It is NOT faithful to the concurrent functions' error COUNT: the
racy append can lose recorded errors.  The full interleaving semantics of
the concurrent fan-out is `fanStep`/`fanRun` further below.

The remote call outcome is `fail : α → Option Err` (`none` = success); a
successful call updates an explicit remote state `σ` via `upd`. -/

/-- Aggregated error value of the fan-out:
`fmt.Errorf("%d errors (e.g. %v)", len(errors), errors[0])`. -/
structure AggError : Type where
  count : Nat
  first : Err
  deriving DecidableEq, Repr

/-- `if len(errors) > 0 { return fmt.Errorf(...) } return nil`. -/
def aggregate (errs : List Err) : Option AggError :=
  match errs with
  | [] => none
  | e :: _ => some (AggError.mk errs.length e)

/-- The per-item loop: one tier-3-gated call per item, unconditionally;
failures are recorded, successes update the remote state. -/
def wipeLoop {α σ : Type} (mk : α → ApiCall) (fail : α → Option Err)
    (upd : α → σ → σ) : List α → σ → σ × List Err × List Event
  | [], s => (s, [], [])
  | x :: xs, s =>
    match fail x with
    | some e =>
      let r := wipeLoop mk fail upd xs s
      (r.1, e :: r.2.1, Event.tick 3 :: Event.call (mk x) :: r.2.2)
    | none =>
      let r := wipeLoop mk fail upd xs (upd x s)
      (r.1, r.2.1, Event.tick 3 :: Event.call (mk x) :: r.2.2)

/-- `deleteAllUserMessages`, serialized semantics (see the section comment):
one `DeleteMessage(channelID, timestamp)` call per collected message; the
remote state maps timestamps to existence.  The interleaving semantics of
this function is `deleteAllUserMessagesConc` below. -/
def deleteAllUserMessages (fail : String → Option Err) (channelID : String)
    (msgs : List SearchMessage) (remote : String → Bool) :
    (String → Bool) × Option AggError × List Event :=
  let r := wipeLoop (fun m => ApiCall.deleteMessage channelID m.timestamp)
    (fun m => fail m.timestamp)
    (fun m s => fun ts => if ts == m.timestamp then false else s ts)
    msgs remote
  (r.1, aggregate r.2.1, r.2.2)

/-- `deleteAllUserFiles`: one `DeleteFile(f.ID)` call per collected file
(this one is sequential in the source, too); the remote state maps file IDs
to existence. -/
def deleteAllUserFiles (fail : String → Option Err)
    (files : List File) (remote : String → Bool) :
    (String → Bool) × Option AggError × List Event :=
  let r := wipeLoop (fun f => ApiCall.deleteFile f.id)
    (fun f => fail f.id)
    (fun f s => fun fid => if fid == f.id then false else s fid)
    files remote
  (r.1, aggregate r.2.1, r.2.2)

/-- `redactAllUserMessages`, serialized semantics (see the section comment):
one `UpdateMessage(channelID, timestamp, redact(m.Text))` call per collected
message; the remote state maps timestamps to message text.  The interleaving
semantics of this function is `redactAllUserMessagesConc` below. -/
def redactAllUserMessages (fail : String → List Rune → Option Err)
    (channelID : String) (isSpace isPunct : Rune → Bool) (marker : Rune)
    (msgs : List SearchMessage) (remote : String → Option (List Rune)) :
    (String → Option (List Rune)) × Option AggError × List Event :=
  let r := wipeLoop
    (fun m => ApiCall.updateMessage channelID m.timestamp
      (redact isSpace isPunct marker m.text))
    (fun m => fail m.timestamp (redact isSpace isPunct marker m.text))
    (fun m s => fun ts => if ts == m.timestamp
      then some (redact isSpace isPunct marker m.text) else s ts)
    msgs remote
  (r.1, aggregate r.2.1, r.2.2)

/-! ## Config file decoding (`init`, `main.go:46-74`)

```go
var config struct {
    Channel      string
    UserID       string
    Token        string
    WipeMessages bool
    WipeFiles    bool
    Path         string `json:"-"`
    AutoApprove  bool
    Redact       bool
    RedactMarker rune
}
...
flag.Parse()
f, err := os.Open(config.Path)
if err == nil {
    if err := json.NewDecoder(f).Decode(&config); err != nil { log.Fatalf(...) }
}
```
`json.Decode` into a pre-populated struct overwrites exactly the fields
present in the JSON object and leaves absent fields untouched; a field
tagged `json:"-"` is never decoded.  The JSON document is modelled as one
`Option` per decodable field; `Path` has no slot, mirroring its tag. -/

/-- The `config` struct (`main.go` variant). -/
structure Config : Type where
  channel : String
  userID : String
  token : String
  wipeMessages : Bool
  wipeFiles : Bool
  path : String
  autoApprove : Bool
  redact : Bool
  redactMarker : Rune
  deriving DecidableEq, Repr

/-- A parsed config-file JSON object: one optional value per field that
`encoding/json` can decode into `config` (`Path` is tagged `json:"-"` and
therefore has no slot here). -/
structure ConfigJSON : Type where
  channel : Option String
  userID : Option String
  token : Option String
  wipeMessages : Option Bool
  wipeFiles : Option Bool
  autoApprove : Option Bool
  redact : Option Bool
  redactMarker : Option Rune
  deriving DecidableEq, Repr

/-- `json.NewDecoder(f).Decode(&config)`: merge the file's fields over the
flag-populated config. -/
def decodeConfigInto (c : Config) (j : ConfigJSON) : Config :=
  Config.mk (j.channel.getD c.channel) (j.userID.getD c.userID)
    (j.token.getD c.token) (j.wipeMessages.getD c.wipeMessages)
    (j.wipeFiles.getD c.wipeFiles) c.path
    (j.autoApprove.getD c.autoApprove) (j.redact.getD c.redact)
    (j.redactMarker.getD c.redactMarker)

/-! ## Token fingerprint logging (`main.go:93`)

```go
log.Printf("looking up user for token %s...%s",
    config.Token[:8], config.Token[len(config.Token)-9:])
```
Go string slicing `s[:hi]` requires `0 ≤ hi ≤ len(s)` and `s[lo:]` requires
`0 ≤ lo ≤ len(s)`; otherwise the runtime panics with an out-of-range index.
`none` models the panic. -/

/-- Go `s[:hi]` (with `hi` an `int`): `none` on out-of-range. -/
def goSliceTo {α : Type} (s : List α) (hi : Int) : Option (List α) :=
  if 0 ≤ hi ∧ hi ≤ (s.length : Int) then some (s.take hi.toNat) else none

/-- Go `s[lo:]` (with `lo` an `int`): `none` on out-of-range. -/
def goSliceFrom {α : Type} (s : List α) (lo : Int) : Option (List α) :=
  if 0 ≤ lo ∧ lo ≤ (s.length : Int) then some (s.drop lo.toNat) else none

/-- The pair `(token[:8], token[len(token)-9:])` logged by `main`, `none` if
either slice panics. -/
def tokenFingerprint (token : List Char) : Option (List Char × List Char) :=
  match goSliceTo token 8, goSliceFrom token ((token.length : Int) - 9) with
  | some a, some b => some (a, b)
  | _, _ => none

/-- The init-time check `if config.Token == "" { log.Fatalf("-token is required") }`:
`true` when the token passes. -/
def tokenRequiredCheck (token : List Char) : Bool :=
  !(token == [])

/-- What `main` does at the fingerprint log line, relative to the later wipe
actions: a panic terminates the process before any wipe action. -/
inductive MainEvent : Type where
  | logFingerprint
  | panicSliceOutOfRange
  | wipeAction (e : Event)
  deriving DecidableEq, Repr

/-- The tail of `main` from the fingerprint log onwards: on a slicing panic
nothing else runs; otherwise the wipe phases' events follow the log. -/
def mainFromFingerprint (token : List Char) (wipeEvents : List Event) :
    List MainEvent :=
  match tokenFingerprint token with
  | none => [MainEvent.panicSliceOutOfRange]
  | some _ => MainEvent.logFingerprint :: wipeEvents.map MainEvent.wipeAction

/-! ## The racy error append (C8)

In `deleteAllUserMessages` / `redactAllUserMessages` each goroutine runs
`errors = append(errors, err)` on the shared `errors` slice with no mutex:
one append is a read of the shared slice value followed by a write of the
extended slice.  Two failing goroutines are modelled, each contributing one
read step and one write step; a schedule interleaves these four steps. -/

/-- One step of one of the two goroutines: its read of the shared `errors`
slice, or its write back of the extended slice.  `g` selects the goroutine. -/
inductive RaceStep : Type where
  | read (g : Bool)
  | write (g : Bool)
  deriving DecidableEq, Repr

/-- Shared slice plus each goroutine's private snapshot of it. -/
structure RaceState : Type where
  shared : List Err
  snap1 : List Err
  snap2 : List Err
  deriving DecidableEq, Repr

/-- Effect of one step: a read copies `shared` into the goroutine's
snapshot; a write stores the snapshot extended by that goroutine's error. -/
def raceStep (e1 e2 : Err) (s : RaceState) : RaceStep → RaceState
  | RaceStep.read false => RaceState.mk s.shared s.shared s.snap2
  | RaceStep.read true => RaceState.mk s.shared s.snap1 s.shared
  | RaceStep.write false => RaceState.mk (s.snap1 ++ [e1]) s.snap1 s.snap2
  | RaceStep.write true => RaceState.mk (s.snap2 ++ [e2]) s.snap1 s.snap2

/-- The shared `errors` slice after running a schedule from the empty
slice. -/
def raceRun (e1 e2 : Err) (sched : List RaceStep) : List Err :=
  (sched.foldl (raceStep e1 e2) (RaceState.mk [] [] [])).shared

/-- A schedule is a valid interleaving of the two goroutines when each
goroutine's own steps occur in order: read before write. -/
def validInterleaving (sched : List RaceStep) : Bool :=
  sched.filter (fun st => match st with | RaceStep.read false => true | RaceStep.write false => true | _ => false)
      == [RaceStep.read false, RaceStep.write false]
    && sched.filter (fun st => match st with | RaceStep.read true => true | RaceStep.write true => true | _ => false)
      == [RaceStep.read true, RaceStep.write true]

/-! ## Interleaving semantics of the concurrent fan-out (C4)

The two-goroutine race model above generalizes to the whole fan-out of
`deleteAllUserMessages` / `redactAllUserMessages`: one goroutine per
collected item, each executing

```go
<-rateLimitTier3
if ..., err := call(...); err != nil {
    errors = append(errors, err)     // read errors; write errors ++ [err]
}
```

Goroutines are indexed by their item's position.  A schedule is a list of
goroutine indices; a scheduled goroutine executes its next remaining step.
The ticker receive and the API call touch no shared data; on failure the
unsynchronized append is the same read-snapshot-then-write-extension pair
as in the C8 model. -/

/-- One step of a fan-out goroutine's body. -/
inductive GoStep : Type where
  | tick
  | call
  | read
  | write
  deriving DecidableEq, Repr

/-- The step sequence of one goroutine: gated call, then — only when its
call fails — the read and write halves of `errors = append(errors, err)`. -/
def goroutineProgram (failed : Bool) : List GoStep :=
  GoStep.tick :: GoStep.call ::
    (if failed then [GoStep.read, GoStep.write] else [])

/-- Fan-out execution state: the shared `errors` slice, each goroutine's
private snapshot of it, each goroutine's remaining steps, and the events
performed so far (in execution order). -/
structure FanState : Type where
  shared : List Err
  snaps : Nat → List Err
  remaining : Nat → List GoStep
  events : List Event

/-- Effect of scheduling goroutine `g` for one step.  A goroutine with no
remaining steps leaves the state unchanged. -/
def fanStep (mkCall : Nat → ApiCall) (errOf : Nat → Err) (s : FanState)
    (g : Nat) : FanState :=
  match s.remaining g with
  | [] => s
  | st :: rest =>
    match st with
    | GoStep.tick =>
        FanState.mk s.shared s.snaps
          (fun g2 => if g2 = g then rest else s.remaining g2)
          (s.events ++ [Event.tick 3])
    | GoStep.call =>
        FanState.mk s.shared s.snaps
          (fun g2 => if g2 = g then rest else s.remaining g2)
          (s.events ++ [Event.call (mkCall g)])
    | GoStep.read =>
        FanState.mk s.shared
          (fun g2 => if g2 = g then s.shared else s.snaps g2)
          (fun g2 => if g2 = g then rest else s.remaining g2)
          s.events
    | GoStep.write =>
        FanState.mk (s.snaps g ++ [errOf g]) s.snaps
          (fun g2 => if g2 = g then rest else s.remaining g2)
          s.events

/-- Initial fan-out state for `n` goroutines. -/
def fanInit (n : Nat) (failedOf : Nat → Bool) : FanState :=
  FanState.mk [] (fun _ => [])
    (fun g => if g < n then goroutineProgram (failedOf g) else []) []

/-- Run a schedule of the `n`-goroutine fan-out from the initial state. -/
def fanRun (mkCall : Nat → ApiCall) (errOf : Nat → Err) (n : Nat)
    (failedOf : Nat → Bool) (sched : List Nat) : FanState :=
  sched.foldl (fanStep mkCall errOf) (fanInit n failedOf)

/-- Placeholder for out-of-range item lookups (never scheduled: goroutines
`g ≥ n` start with no remaining steps). -/
def noMessage : SearchMessage := SearchMessage.mk "" "" "" []

/-- `deleteAllUserMessages` under the interleaving semantics: run the
fan-out for the given schedule, then aggregate whatever the shared `errors`
slice holds, exactly as the source does after `wg.Wait()`. -/
def deleteAllUserMessagesConc (fail : String → Option Err)
    (channelID : String) (msgs : List SearchMessage) (sched : List Nat) :
    FanState × Option AggError :=
  let s := fanRun
    (fun g => ApiCall.deleteMessage channelID (msgs.getD g noMessage).timestamp)
    (fun g => (fail (msgs.getD g noMessage).timestamp).getD "")
    msgs.length
    (fun g => (fail (msgs.getD g noMessage).timestamp).isSome)
    sched
  (s, aggregate s.shared)

/-- `redactAllUserMessages` under the interleaving semantics. -/
def redactAllUserMessagesConc (fail : String → List Rune → Option Err)
    (channelID : String) (isSpace isPunct : Rune → Bool) (marker : Rune)
    (msgs : List SearchMessage) (sched : List Nat) :
    FanState × Option AggError :=
  let s := fanRun
    (fun g => ApiCall.updateMessage channelID (msgs.getD g noMessage).timestamp
      (redact isSpace isPunct marker (msgs.getD g noMessage).text))
    (fun g => (fail (msgs.getD g noMessage).timestamp
      (redact isSpace isPunct marker (msgs.getD g noMessage).text)).getD "")
    msgs.length
    (fun g => (fail (msgs.getD g noMessage).timestamp
      (redact isSpace isPunct marker (msgs.getD g noMessage).text)).isSome)
    sched
  (s, aggregate s.shared)

/-- The launch-order serialized schedule: each goroutine runs all its steps
before the next one starts (one admissible interleaving, in which the error
appends do not race). -/
def serialSched (n : Nat) (failedOf : Nat → Bool) : List Nat :=
  (List.range n).flatMap
    (fun g => List.replicate (goroutineProgram (failedOf g)).length g)

/-! ## Helper lemmas -/

theorem rateGatedAux_tick_call (b : Bool) (t : Nat) (c : ApiCall)
    (rest : List Event) :
    rateGatedAux b (Event.tick t :: Event.call c :: rest)
      = rateGatedAux false rest := by
  simp [rateGatedAux]

theorem rateGatedAux_flatMap_blocks {α : Type} (t : Nat) (mk : α → ApiCall)
    (xs : List α) (b : Bool) :
    rateGatedAux b (xs.flatMap fun x => [Event.tick t, Event.call (mk x)])
      = true := by
  induction xs generalizing b with
  | nil => rfl
  | cons x xs ih =>
    simpa [List.flatMap_cons, rateGatedAux] using ih false

theorem wipeLoop_events {α σ : Type} (mk : α → ApiCall) (fail : α → Option Err)
    (upd : α → σ → σ) (xs : List α) (s : σ) :
    (wipeLoop mk fail upd xs s).2.2
      = xs.flatMap fun x => [Event.tick 3, Event.call (mk x)] := by
  induction xs generalizing s with
  | nil => rfl
  | cons x xs ih =>
    cases h : fail x <;> simp [wipeLoop, h, ih]

theorem wipeLoop_errs {α σ : Type} (mk : α → ApiCall) (fail : α → Option Err)
    (upd : α → σ → σ) (xs : List α) (s : σ) :
    (wipeLoop mk fail upd xs s).2.1 = xs.filterMap fail := by
  induction xs generalizing s with
  | nil => rfl
  | cons x xs ih =>
    cases h : fail x <;> simp [wipeLoop, h, ih]

theorem wipeLoop_state {α σ : Type} (mk : α → ApiCall) (fail : α → Option Err)
    (upd : α → σ → σ) (xs : List α) (s : σ) :
    (wipeLoop mk fail upd xs s).1
      = xs.foldl
          (fun st x => match fail x with | none => upd x st | some _ => st) s := by
  induction xs generalizing s with
  | nil => rfl
  | cons x xs ih =>
    cases h : fail x <;> simp [wipeLoop, h, ih]

/-- Once a key is mapped to `false`, the delete-only state updates of the
wipe fold never map it back to `true`. -/
theorem wipeFold_false_stable {α : Type} (key : α → String)
    (fail : α → Option Err) (xs : List α) (s : String → Bool) (k : String)
    (hs : s k = false) :
    (xs.foldl
        (fun st x => match fail x with
          | none => fun k2 => if k2 == key x then false else st k2
          | some _ => st) s) k = false := by
  induction xs generalizing s with
  | nil => exact hs
  | cons x xs ih =>
    cases h : fail x with
    | none =>
      simp only [List.foldl_cons, h]
      exact ih _ (by by_cases hk : k == key x <;> simp [hk, hs])
    | some e =>
      simp only [List.foldl_cons, h]
      exact ih _ hs

/-- Every item whose call succeeds ends up deleted in the final wipe state. -/
theorem wipeFold_deletes {α : Type} (key : α → String)
    (fail : α → Option Err) (xs : List α) (s : String → Bool) (g : α)
    (hg : g ∈ xs) (hsucc : fail g = none) :
    (xs.foldl
        (fun st x => match fail x with
          | none => fun k2 => if k2 == key x then false else st k2
          | some _ => st) s) (key g) = false := by
  induction xs generalizing s with
  | nil => cases hg
  | cons x xs ih =>
    rcases List.mem_cons.1 hg with rfl | hg'
    · simp only [List.foldl_cons, hsucc]
      exact wipeFold_false_stable key fail xs _ (key g) (by simp)
    · cases h : fail x with
      | none => simpa only [List.foldl_cons, h] using ih _ hg'
      | some e => simpa only [List.foldl_cons, h] using ih _ hg'

/-- One tick-call block per page: the search pagination loop, when every
response from `page` to `P` succeeds and reports page count `P`, visits
exactly the pages `page, …, P` in order. -/
theorem fetchMessagesLoop_const (api : Nat → Except Err SearchResp)
    (P : Nat) (M : Nat → List SearchMessage) :
    ∀ (fuel page : Nat) (acc : List SearchMessage),
      P + 1 ≤ fuel + page →
      (∀ p, page ≤ p → p ≤ P → api p = Except.ok (SearchResp.mk (M p) P)) →
      fetchMessagesLoop api fuel page P acc
        = (some (Except.ok (acc ++ (List.range' page (P + 1 - page)).flatMap M)),
           (List.range' page (P + 1 - page)).flatMap
             (fun p => [Event.tick 2, Event.call (ApiCall.searchMessages p)])) := by
  intro fuel
  induction fuel with
  | zero =>
    intro page acc hfuel h
    have hgt : ¬ page ≤ P := by omega
    have hz : P + 1 - page = 0 := by omega
    simp [fetchMessagesLoop, hgt, hz]
  | succ fuel ih =>
    intro page acc hfuel h
    by_cases hle : page ≤ P
    · have hapi := h page le_rfl hle
      have hrec := ih (page + 1) (acc ++ M page) (by omega)
        (fun p hp1 hp2 => h p (by omega) hp2)
      have hrange : List.range' page (P + 1 - page)
          = page :: List.range' (page + 1) (P - page) := by
        have he : P + 1 - page = (P - page) + 1 := by omega
        rw [he, List.range'_succ page (P - page) 1]
      have he2 : P + 1 - (page + 1) = P - page := by omega
      rw [he2] at hrec
      simp only [fetchMessagesLoop, hle, if_pos, hapi, hrec, hrange,
        List.flatMap_cons, List.append_assoc, List.cons_append, List.nil_append]
    · have hz : P + 1 - page = 0 := by omega
      simp [fetchMessagesLoop, hle, hz]

/-- Error propagation: if pages before `k` succeed (reporting page count
`P`) and the request for page `k ≤ P` fails with `e`, the loop stops at `k`
and returns `e`. -/
theorem fetchMessagesLoop_error (api : Nat → Except Err SearchResp)
    (P : Nat) (M : Nat → List SearchMessage) (k : Nat) (e : Err) :
    ∀ (fuel page : Nat) (acc : List SearchMessage),
      page ≤ k → k ≤ P → k + 1 ≤ fuel + page →
      (∀ p, page ≤ p → p < k → api p = Except.ok (SearchResp.mk (M p) P)) →
      api k = Except.error e →
      (fetchMessagesLoop api fuel page P acc).1 = some (Except.error e) := by
  intro fuel
  induction fuel with
  | zero =>
    intro page acc hpk hkP hfuel h hk
    omega
  | succ fuel ih =>
    intro page acc hpk hkP hfuel h hk
    have hle : page ≤ P := by omega
    by_cases hpage : page = k
    · subst hpage
      simp [fetchMessagesLoop, hle, hk]
    · have hapi := h page le_rfl (by omega)
      have hrec := ih (page + 1) (acc ++ M page) (by omega) hkP (by omega)
        (fun p hp1 hp2 => h p (by omega) hp2) hk
      simp only [fetchMessagesLoop, hle, if_pos, hapi]
      exact hrec

/-- Same as `fetchMessagesLoop_const`, for the file pagination loop (tier 3,
paging always present and reporting `P` pages). -/
theorem fetchFilesLoop_const (api : Nat → Except Err FileResp)
    (P : Nat) (F : Nat → List File) :
    ∀ (fuel page : Nat) (acc : List File),
      P + 1 ≤ fuel + page →
      (∀ p, page ≤ p → p ≤ P → api p = Except.ok (FileResp.mk (F p) (some P))) →
      fetchFilesLoop api fuel page P acc
        = (some (Except.ok (acc ++ (List.range' page (P + 1 - page)).flatMap F)),
           (List.range' page (P + 1 - page)).flatMap
             (fun p => [Event.tick 3, Event.call (ApiCall.getFiles p)])) := by
  intro fuel
  induction fuel with
  | zero =>
    intro page acc hfuel h
    have hgt : ¬ page ≤ P := by omega
    have hz : P + 1 - page = 0 := by omega
    simp [fetchFilesLoop, hgt, hz]
  | succ fuel ih =>
    intro page acc hfuel h
    by_cases hle : page ≤ P
    · have hapi := h page le_rfl hle
      have hrec := ih (page + 1) (acc ++ F page) (by omega)
        (fun p hp1 hp2 => h p (by omega) hp2)
      have hrange : List.range' page (P + 1 - page)
          = page :: List.range' (page + 1) (P - page) := by
        have he : P + 1 - page = (P - page) + 1 := by omega
        rw [he, List.range'_succ page (P - page) 1]
      have he2 : P + 1 - (page + 1) = P - page := by omega
      rw [he2] at hrec
      simp only [fetchFilesLoop, hle, if_pos, hapi, hrec, hrange,
        List.flatMap_cons, List.append_assoc, List.cons_append, List.nil_append]
    · have hz : P + 1 - page = 0 := by omega
      simp [fetchFilesLoop, hle, hz]

/-- Error propagation for the file pagination loop. -/
theorem fetchFilesLoop_error (api : Nat → Except Err FileResp)
    (P : Nat) (F : Nat → List File) (k : Nat) (e : Err) :
    ∀ (fuel page : Nat) (acc : List File),
      page ≤ k → k ≤ P → k + 1 ≤ fuel + page →
      (∀ p, page ≤ p → p < k → api p = Except.ok (FileResp.mk (F p) (some P))) →
      api k = Except.error e →
      (fetchFilesLoop api fuel page P acc).1 = some (Except.error e) := by
  intro fuel
  induction fuel with
  | zero =>
    intro page acc hpk hkP hfuel h hk
    omega
  | succ fuel ih =>
    intro page acc hpk hkP hfuel h hk
    have hle : page ≤ P := by omega
    by_cases hpage : page = k
    · subst hpage
      simp [fetchFilesLoop, hle, hk]
    · have hapi := h page le_rfl (by omega)
      have hrec := ih (page + 1) (acc ++ F page) (by omega) hkP (by omega)
        (fun p hp1 hp2 => h p (by omega) hp2) hk
      simp only [fetchFilesLoop, hle, if_pos, hapi]
      exact hrec

/-- Every message produced by the history filter belongs to the
authenticated user and carries the resolved channel's ID. -/
theorem processHistory_mem (cid uid : String) (msgs : List HistoryMessage)
    (m : SearchMessage) (hm : m ∈ processHistory cid uid msgs) :
    m.user = uid ∧ m.channel = cid := by
  simp only [processHistory, List.mem_filterMap] at hm
  obtain ⟨h, _, hif⟩ := hm
  by_cases hu : h.user == uid
  · rw [if_pos hu] at hif
    cases hif
    exact ⟨by simpa using hu, rfl⟩
  · rw [if_neg hu] at hif
    cases hif

/-- The direct-message loop only accumulates the authenticated user's
messages in the resolved channel. -/
theorem fetchDirectMessagesLoop_user (api : String → Except Err HistoryResp)
    (cid uid : String) :
    ∀ (fuel : Nat) (hist : HistoryResp) (acc msgs : List SearchMessage),
      (∀ m ∈ acc, m.user = uid ∧ m.channel = cid) →
      (fetchDirectMessagesLoop api cid uid fuel hist acc).1
        = some (Except.ok msgs) →
      ∀ m ∈ msgs, m.user = uid ∧ m.channel = cid := by
  intro fuel
  induction fuel with
  | zero =>
    intro hist acc msgs hacc hres m hm
    by_cases hstop : (hist.nextCursor == "" || !hist.hasMore) = true
    · simp only [fetchDirectMessagesLoop, hstop, if_pos, Option.some.injEq,
        Except.ok.injEq] at hres
      subst hres
      rcases List.mem_append.1 hm with h1 | h2
      · exact hacc m h1
      · exact processHistory_mem cid uid hist.messages m h2
    · simp only [fetchDirectMessagesLoop, hstop] at hres
      cases hres
  | succ fuel ih =>
    intro hist acc msgs hacc hres m hm
    by_cases hstop : (hist.nextCursor == "" || !hist.hasMore) = true
    · simp only [fetchDirectMessagesLoop, hstop, if_pos, Option.some.injEq,
        Except.ok.injEq] at hres
      subst hres
      rcases List.mem_append.1 hm with h1 | h2
      · exact hacc m h1
      · exact processHistory_mem cid uid hist.messages m h2
    · simp only [fetchDirectMessagesLoop, hstop] at hres
      cases hapi : api hist.nextCursor with
      | error e => rw [hapi] at hres; cases hres
      | ok hist' =>
        rw [hapi] at hres
        refine ih hist' (acc ++ processHistory cid uid hist.messages) msgs
          ?_ hres m hm
        intro m2 hm2
        rcases List.mem_append.1 hm2 with h1 | h2
        · exact hacc m2 h1
        · exact processHistory_mem cid uid hist.messages m2 h2

/-! Rate-gating of every loop trace. -/

theorem rateGatedAux_cursorLoop {α : Type} (tier : Nat) (mk : String → ApiCall)
    (api : String → Except Err (List α × String)) :
    ∀ (fuel : Nat) (cursor : String) (acc : List α) (b : Bool),
      rateGatedAux b (cursorLoop tier mk api fuel cursor acc).2 = true := by
  intro fuel
  induction fuel with
  | zero => intro cursor acc b; rfl
  | succ fuel ih =>
    intro cursor acc b
    cases hapi : api cursor with
    | error e => simp [cursorLoop, hapi, rateGatedAux]
    | ok page =>
      obtain ⟨xs, next⟩ := page
      by_cases hnext : next == ""
      · simp [cursorLoop, hapi, hnext, rateGatedAux]
      · simp only [cursorLoop, hapi, hnext, Bool.false_eq_true, if_false]
        rw [rateGatedAux_tick_call]
        exact ih next (acc ++ xs) false

theorem rateGatedAux_fetchMessagesLoop (api : Nat → Except Err SearchResp) :
    ∀ (fuel page pageMax : Nat) (acc : List SearchMessage) (b : Bool),
      rateGatedAux b (fetchMessagesLoop api fuel page pageMax acc).2 = true := by
  intro fuel
  induction fuel with
  | zero =>
    intro page pageMax acc b
    by_cases h : page ≤ pageMax <;> simp [fetchMessagesLoop, h, rateGatedAux]
  | succ fuel ih =>
    intro page pageMax acc b
    by_cases h : page ≤ pageMax
    · cases hapi : api page with
      | error e => simp [fetchMessagesLoop, h, hapi, rateGatedAux]
      | ok resp =>
        simp only [fetchMessagesLoop, h, if_pos, hapi]
        rw [rateGatedAux_tick_call]
        exact ih (page + 1) resp.pageCount (acc ++ resp.pageMatches) false
    · simp [fetchMessagesLoop, h, rateGatedAux]

theorem rateGatedAux_fetchFilesLoop (api : Nat → Except Err FileResp) :
    ∀ (fuel page pageMax : Nat) (acc : List File) (b : Bool),
      rateGatedAux b (fetchFilesLoop api fuel page pageMax acc).2 = true := by
  intro fuel
  induction fuel with
  | zero =>
    intro page pageMax acc b
    by_cases h : page ≤ pageMax <;> simp [fetchFilesLoop, h, rateGatedAux]
  | succ fuel ih =>
    intro page pageMax acc b
    by_cases h : page ≤ pageMax
    · cases hapi : api page with
      | error e => simp [fetchFilesLoop, h, hapi, rateGatedAux]
      | ok resp =>
        simp only [fetchFilesLoop, h, if_pos, hapi]
        rw [rateGatedAux_tick_call]
        exact ih (page + 1) _ (acc ++ resp.files) false
    · simp [fetchFilesLoop, h, rateGatedAux]

theorem rateGatedAux_fetchDirectMessagesLoop
    (api : String → Except Err HistoryResp) (cid uid : String) :
    ∀ (fuel : Nat) (hist : HistoryResp) (acc : List SearchMessage) (b : Bool),
      rateGatedAux b (fetchDirectMessagesLoop api cid uid fuel hist acc).2
        = true := by
  intro fuel
  induction fuel with
  | zero =>
    intro hist acc b
    by_cases hstop : (hist.nextCursor == "" || !hist.hasMore) = true <;>
      simp [fetchDirectMessagesLoop, hstop, rateGatedAux]
  | succ fuel ih =>
    intro hist acc b
    by_cases hstop : (hist.nextCursor == "" || !hist.hasMore) = true
    · simp [fetchDirectMessagesLoop, hstop, rateGatedAux]
    · cases hapi : api hist.nextCursor with
      | error e => simp [fetchDirectMessagesLoop, hstop, hapi, rateGatedAux]
      | ok hist' =>
        simp only [fetchDirectMessagesLoop, hstop, Bool.false_eq_true, if_false, hapi]
        rw [rateGatedAux_tick_call]
        exact ih hist' (acc ++ processHistory cid uid hist.messages) false

/-! Wrapper-level pagination characterizations. -/

/-- `fetchMessages` under a constant reported page count `P ≥ 1`: one gated
search call per page `1 … P`, and the stored result is the filtered in-order
concatenation of all pages. -/
theorem fetchMessages_const (api : Nat → Except Err SearchResp)
    (M : Nat → List SearchMessage) (uid : String) (P fuel : Nat)
    (hP : 1 ≤ P) (hfuel : P ≤ fuel + 1)
    (h : ∀ p, 1 ≤ p → p ≤ P → api p = Except.ok (SearchResp.mk (M p) P)) :
    fetchMessages api uid fuel
      = (some (Except.ok
          (((List.range' 1 P).flatMap M).filter (fun m => m.user == uid))),
         (List.range' 1 P).flatMap
           (fun p => [Event.tick 2, Event.call (ApiCall.searchMessages p)])) := by
  have hapi1 := h 1 le_rfl hP
  have hloop := fetchMessagesLoop_const api P M fuel 2 (M 1) (by omega)
    (fun p hp1 hp2 => h p (by omega) hp2)
  have hP2 : P + 1 - 2 = P - 1 := by omega
  rw [hP2] at hloop
  have hrange : List.range' 1 P = 1 :: List.range' 2 (P - 1) := by
    have he : P = (P - 1) + 1 := by omega
    rw [he, List.range'_succ 1 (P - 1) 1]
    rw [← he]
  simp only [fetchMessages, hapi1, hloop, hrange, List.flatMap_cons,
    List.cons_append, List.nil_append, Option.map_some', Except.map]

/-- `fetchMessages` propagates the first failing page request's error. -/
theorem fetchMessages_error (api : Nat → Except Err SearchResp)
    (M : Nat → List SearchMessage) (uid : String) (P k fuel : Nat) (e : Err)
    (hk1 : 1 ≤ k) (hkP : k ≤ P) (hfuel : k ≤ fuel + 1)
    (h : ∀ p, 1 ≤ p → p < k → api p = Except.ok (SearchResp.mk (M p) P))
    (hk : api k = Except.error e) :
    (fetchMessages api uid fuel).1 = some (Except.error e) := by
  by_cases h1 : k = 1
  · subst h1
    simp [fetchMessages, hk]
  · have hapi1 := h 1 le_rfl (by omega)
    have hloop := fetchMessagesLoop_error api P M k e fuel 2 (M 1)
      (by omega) hkP (by omega) (fun p hp1 hp2 => h p (by omega) hp2) hk
    simp only [fetchMessages, hapi1]
    rw [hloop]
    rfl

/-- `fetchFiles` under constant reported paging `P ≥ 1`: one gated `GetFiles`
call per page `1 … P`, and the stored result is the unfiltered in-order
concatenation of all pages. -/
theorem fetchFiles_const (api : Nat → Except Err FileResp)
    (F : Nat → List File) (P fuel : Nat)
    (hP : 1 ≤ P) (hfuel : P ≤ fuel + 1)
    (h : ∀ p, 1 ≤ p → p ≤ P → api p = Except.ok (FileResp.mk (F p) (some P))) :
    fetchFiles api fuel
      = (some (Except.ok ((List.range' 1 P).flatMap F)),
         (List.range' 1 P).flatMap
           (fun p => [Event.tick 3, Event.call (ApiCall.getFiles p)])) := by
  have hapi1 := h 1 le_rfl hP
  have hloop := fetchFilesLoop_const api P F fuel 2 (F 1) (by omega)
    (fun p hp1 hp2 => h p (by omega) hp2)
  have hP2 : P + 1 - 2 = P - 1 := by omega
  rw [hP2] at hloop
  have hrange : List.range' 1 P = 1 :: List.range' 2 (P - 1) := by
    have he : P = (P - 1) + 1 := by omega
    rw [he, List.range'_succ 1 (P - 1) 1]
    rw [← he]
  simp only [fetchFiles, hapi1, hloop, hrange, List.flatMap_cons,
    List.cons_append, List.nil_append]

/-- `fetchFiles` propagates the first failing page request's error. -/
theorem fetchFiles_error (api : Nat → Except Err FileResp)
    (F : Nat → List File) (P k fuel : Nat) (e : Err)
    (hk1 : 1 ≤ k) (hkP : k ≤ P) (hfuel : k ≤ fuel + 1)
    (h : ∀ p, 1 ≤ p → p < k → api p = Except.ok (FileResp.mk (F p) (some P)))
    (hk : api k = Except.error e) :
    (fetchFiles api fuel).1 = some (Except.error e) := by
  by_cases h1 : k = 1
  · subst h1
    simp [fetchFiles, hk]
  · have hapi1 := h 1 le_rfl (by omega)
    have hloop := fetchFilesLoop_error api P F k e fuel 2 (F 1)
      (by omega) hkP (by omega) (fun p hp1 hp2 => h p (by omega) hp2) hk
    simp only [fetchFiles, hapi1]
    exact hloop

end SlackWipe

namespace SlackWipe

/-- C1: for every input string `s`, `redact s` maps each code point `r` to
`r` itself when `r` is whitespace or punctuation and to the marker glyph
otherwise; it preserves the number and positions of code points and leaves
every whitespace/punctuation code point unchanged (stated position-wise via
`getD`). -/
theorem C1_redact_pointwise (isSpace isPunct : Rune → Bool) (marker : Rune)
    (s : List Rune) :
    redact isSpace isPunct marker s
      = s.map (fun r => if isSpace r || isPunct r then r else marker)
    ∧ (redact isSpace isPunct marker s).length = s.length
    ∧ ∀ i : Nat, (isSpace (s.getD i 0) || isPunct (s.getD i 0)) = true →
        (redact isSpace isPunct marker s).getD i 0 = s.getD i 0 := by
  refine ⟨rfl, by simp [redact, runesMapString], ?_⟩
  intro i h
  simp only [redact, runesMapString, redactRune, List.getD_eq_getElem?_getD,
    List.getElem?_map] at h ⊢
  cases hs : s[i]? with
  | none => simp [hs]
  | some r =>
    rw [hs] at h
    simp only [Option.getD_some] at h
    simp [redactRune, h]

/-- Witness for C1 at a concrete input: the string `"a b."` (code points
`[97, 32, 98, 46]`) with the default marker and ASCII classifiers, checked at
position 1 (the space). -/
theorem C1_redact_pointwise_witness :
    ((fun r : Rune => r == 32) ([97, 32, 98, 46].getD 1 0)
        || (fun r : Rune => r == 46) ([97, 32, 98, 46].getD 1 0)) = true
    ∧ (redact (fun r => r == 32) (fun r => r == 46) defaultRedactMarker
        [97, 32, 98, 46]).getD 1 0 = [97, 32, 98, 46].getD 1 0 := by
  refine ⟨by decide, ?_⟩
  exact (C1_redact_pointwise (fun r => r == 32) (fun r => r == 46)
    defaultRedactMarker [97, 32, 98, 46]).2.2 1 (by decide)

end SlackWipe

namespace SlackWipe

/-- C2, counterexample to the claim as stated: with the authenticated user
`"me"`, a single successful `GetFiles` response page containing a file owned
by `"other"` makes the fetching phase complete successfully with that foreign
file stored in `state.UserFiles` — the code stores the response pages with no
ownership filter, so "every entry of state.UserFiles is a file owned by the
authenticated user" fails for this response sequence. -/
theorem C2_files_unfiltered_counterexample :
    (fetchFiles (fun _ => Except.ok
        (FileResp.mk [File.mk "F1" "other"] (some 1))) 0).1
      = some (Except.ok [File.mk "F1" "other"])
    ∧ ((File.mk "F1" "other").user == "me") = false := by
  exact ⟨rfl, rfl⟩

/-- C2, amended: after the fetching phase completes successfully, every
entry of `state.UserMessages` has its `User` field equal to the
authenticated user's ID, for every sequence of API responses (both for
`fetchMessages`, which filters by `m.User == state.UserID`, and for
`fetchDirectMessages`, which additionally tags each message with the
resolved channel's ID); no such guarantee holds for `state.UserFiles`,
which stores the `GetFiles` response pages unfiltered. -/
theorem C2_user_messages_invariant :
    (∀ (api : Nat → Except Err SearchResp) (uid : String) (fuel : Nat)
        (msgs : List SearchMessage),
        (fetchMessages api uid fuel).1 = some (Except.ok msgs) →
        ∀ m ∈ msgs, m.user = uid)
    ∧ (∀ (api : String → Except Err HistoryResp) (cid uid : String)
        (fuel : Nat) (msgs : List SearchMessage),
        (fetchDirectMessages api cid uid fuel).1 = some (Except.ok msgs) →
        ∀ m ∈ msgs, m.user = uid ∧ m.channel = cid) := by
  constructor
  · intro api uid fuel msgs hres m hm
    unfold fetchMessages at hres
    cases hapi : api 1 with
    | error e => rw [hapi] at hres; simp at hres
    | ok resp =>
      rw [hapi] at hres
      simp only at hres
      cases hloop : (fetchMessagesLoop api fuel 2 resp.pageCount resp.pageMatches).1 with
      | none => rw [hloop] at hres; simp at hres
      | some res =>
        rw [hloop] at hres
        cases res with
        | error e => simp [Except.map] at hres
        | ok l =>
          simp only [Option.map_some', Except.map, Option.some.injEq,
            Except.ok.injEq] at hres
          subst hres
          have hmem := List.mem_filter.1 hm
          simpa using hmem.2
  · intro api cid uid fuel msgs hres m hm
    unfold fetchDirectMessages at hres
    cases hapi : api "" with
    | error e => rw [hapi] at hres; simp at hres
    | ok hist =>
      rw [hapi] at hres
      simp only at hres
      exact fetchDirectMessagesLoop_user api cid uid fuel hist [] msgs
        (by intro m2 hm2; cases hm2) hres m hm

/-- Witness for C2's amended theorem at a concrete input: one successful
search page whose single match belongs to `"me"`. -/
theorem C2_user_messages_invariant_witness :
    (fetchMessages (fun _ => Except.ok
        (SearchResp.mk [SearchMessage.mk "C" "me" "1" []] 1)) "me" 0).1
      = some (Except.ok [SearchMessage.mk "C" "me" "1" []])
    ∧ (SearchMessage.mk "C" "me" "1" []).user = "me" := by
  refine ⟨by rfl, ?_⟩
  exact C2_user_messages_invariant.1
    (fun _ => Except.ok (SearchResp.mk [SearchMessage.mk "C" "me" "1" []] 1))
    "me" 0 [SearchMessage.mk "C" "me" "1" []] (by rfl)
    (SearchMessage.mk "C" "me" "1" []) (by simp)

end SlackWipe

namespace SlackWipe

/-- C3: when auto-approve is not set, the delete/update phase is entered if
and only if the stdin answer, trimmed of surrounding whitespace and
lowercased, equals exactly `"yes"`; any other answer aborts the run
(`log.Fatalf("aborted")` terminates the process, so no delete/update event
is ever issued).  When auto-approve is set, no prompt is shown and the
phase runs unconditionally. -/
theorem C3_approval_gate (isSpace : Char → Bool) (lower : Char → Char)
    (answer : List Char) :
    (promptShown false = true ∧ promptShown true = false)
    ∧ (fetchAndWipeGate false isSpace lower answer = WipePhase.entered
        ↔ toLower lower (trimSpace isSpace answer) = String.toList "yes")
    ∧ (fetchAndWipeGate false isSpace lower answer = WipePhase.aborted
        ↔ toLower lower (trimSpace isSpace answer) ≠ String.toList "yes")
    ∧ fetchAndWipeGate true isSpace lower answer = WipePhase.entered
    ∧ (∀ phaseEvents : List Event,
        fetchAndWipeGate false isSpace lower answer = WipePhase.aborted →
        fetchAndWipeEvents false isSpace lower answer phaseEvents = []) := by
  refine ⟨⟨rfl, rfl⟩, ?_, ?_, rfl, ?_⟩
  · by_cases h : toLower lower (trimSpace isSpace answer) = String.toList "yes" <;>
      simp [fetchAndWipeGate, wipeGate, approvalPrompt, h]
  · by_cases h : toLower lower (trimSpace isSpace answer) = String.toList "yes" <;>
      simp [fetchAndWipeGate, wipeGate, approvalPrompt, h]
  · intro phaseEvents h
    simp [fetchAndWipeEvents, h]

/-- Witness for C3 at a concrete input: answer `" YES\n"` with ASCII
classifiers, which normalizes to `"yes"` and enters the phase. -/
theorem C3_approval_gate_witness :
    fetchAndWipeGate false (fun c => c == ' ' || c == '\n')
        (fun c => Char.toLower c) (String.toList " YES\n")
      = WipePhase.entered := by
  exact (C3_approval_gate (fun c => c == ' ' || c == '\n')
    (fun c => Char.toLower c) (String.toList " YES\n")).2.1.2 (by decide)

end SlackWipe

namespace SlackWipe

/-- The aggregation step: `nil` yields no error; otherwise the error carries
the total failure count and the first recorded failure. -/
theorem aggregate_spec (errs : List Err) :
    (aggregate errs = none ↔ errs = [])
    ∧ ∀ e rest, errs = e :: rest →
        aggregate errs = some (AggError.mk (e :: rest).length e) := by
  constructor
  · cases errs <;> simp [aggregate]
  · intro e rest h
    subst h
    simp [aggregate]

/-- Component equality for fan-out states (the two function-valued fields
pointwise). -/
theorem FanState.extEq (a b : FanState) (h1 : a.shared = b.shared)
    (h2 : ∀ g, a.snaps g = b.snaps g) (h3 : ∀ g, a.remaining g = b.remaining g)
    (h4 : a.events = b.events) : a = b := by
  cases a
  cases b
  simp only [FanState.mk.injEq]
  exact ⟨h1, funext h2, funext h3, h4⟩

/-- Running one goroutine's whole program from a state in which it is fresh:
its two events are appended, its error is appended to the shared slice iff
it failed, and only its own snapshot and remaining steps change. -/
theorem fanRun_segment (mkCall : Nat → ApiCall) (errOf : Nat → Err)
    (s : FanState) (g : Nat) (failed : Bool)
    (h : s.remaining g = goroutineProgram failed) :
    List.foldl (fanStep mkCall errOf) s
        (List.replicate (goroutineProgram failed).length g)
      = FanState.mk
          (if failed then s.shared ++ [errOf g] else s.shared)
          (fun g2 => if g2 = g ∧ failed = true then s.shared else s.snaps g2)
          (fun g2 => if g2 = g then [] else s.remaining g2)
          (s.events ++ [Event.tick 3, Event.call (mkCall g)]) := by
  cases failed with
  | false =>
    have h2 : s.remaining g = [GoStep.tick, GoStep.call] := by
      simpa [goroutineProgram] using h
    show List.foldl (fanStep mkCall errOf) s [g, g] = _
    refine FanState.extEq _ _ ?_ ?_ ?_ ?_
    · simp [fanStep, h2]
    · intro g2
      by_cases hg : g2 = g <;> simp [fanStep, h2, hg]
    · intro g2
      by_cases hg : g2 = g <;> simp [fanStep, h2, hg]
    · simp [fanStep, h2]
  | true =>
    have h2 : s.remaining g
        = [GoStep.tick, GoStep.call, GoStep.read, GoStep.write] := by
      simpa [goroutineProgram] using h
    show List.foldl (fanStep mkCall errOf) s [g, g, g, g] = _
    refine FanState.extEq _ _ ?_ ?_ ?_ ?_
    · simp [fanStep, h2]
    · intro g2
      by_cases hg : g2 = g <;> simp [fanStep, h2, hg]
    · intro g2
      by_cases hg : g2 = g <;> simp [fanStep, h2, hg]
    · simp [fanStep, h2]

/-- Serial execution of a list of fresh goroutines: errors accumulate in
launch order (one per failing goroutine), events are the per-goroutine
tick-call blocks in launch order, and every scheduled goroutine finishes. -/
theorem fanRun_serial_aux (mkCall : Nat → ApiCall) (errOf : Nat → Err)
    (failedOf : Nat → Bool) :
    ∀ (L : List Nat) (s : FanState), L.Nodup →
      (∀ g ∈ L, s.remaining g = goroutineProgram (failedOf g)) →
      (List.foldl (fanStep mkCall errOf) s
          (L.flatMap (fun g =>
            List.replicate (goroutineProgram (failedOf g)).length g))).shared
          = s.shared
            ++ L.filterMap (fun g => if failedOf g then some (errOf g) else none)
      ∧ (List.foldl (fanStep mkCall errOf) s
          (L.flatMap (fun g =>
            List.replicate (goroutineProgram (failedOf g)).length g))).events
          = s.events
            ++ L.flatMap (fun g => [Event.tick 3, Event.call (mkCall g)])
      ∧ ∀ g2, (List.foldl (fanStep mkCall errOf) s
          (L.flatMap (fun g =>
            List.replicate (goroutineProgram (failedOf g)).length g))).remaining g2
          = if g2 ∈ L then [] else s.remaining g2 := by
  intro L
  induction L with
  | nil =>
    intro s _ _
    simp
  | cons g L ih =>
    intro s hnodup hfresh
    have hgL : g ∉ L := (List.nodup_cons.1 hnodup).1
    rw [List.flatMap_cons, List.foldl_append]
    rw [fanRun_segment mkCall errOf s g (failedOf g)
      (hfresh g (List.mem_cons_self g L))]
    have hih := ih (FanState.mk
        (if failedOf g then s.shared ++ [errOf g] else s.shared)
        (fun g2 => if g2 = g ∧ failedOf g = true then s.shared else s.snaps g2)
        (fun g2 => if g2 = g then [] else s.remaining g2)
        (s.events ++ [Event.tick 3, Event.call (mkCall g)]))
      (List.nodup_cons.1 hnodup).2
      (by
        intro g2 hg2
        have hne : g2 ≠ g := fun he => hgL (he ▸ hg2)
        simp only [hne, if_false]
        exact hfresh g2 (List.mem_cons_of_mem g hg2))
    obtain ⟨hsh, hev, hrem⟩ := hih
    refine ⟨?_, ?_, ?_⟩
    · rw [hsh]
      cases hfg : failedOf g <;>
        simp [List.filterMap_cons, hfg, List.append_assoc]
    · rw [hev]
      simp [List.flatMap_cons, List.append_assoc]
    · intro g2
      rw [hrem g2]
      by_cases hg2 : g2 ∈ L
      · simp [hg2, List.mem_cons]
      · by_cases hge : g2 = g <;> simp [hg2, hge, List.mem_cons]

/-- `(List.range l.length).map (fun g => l.getD g d) = l`. -/
theorem map_range_getD {α : Type} (l : List α) (d : α) :
    (List.range l.length).map (fun g => l.getD g d) = l := by
  induction l with
  | nil => rfl
  | cons x xs ih =>
    rw [List.length_cons, List.range_succ_eq_map, List.map_cons, List.map_map]
    have hc : ((fun g => (x :: xs).getD g d) ∘ Nat.succ)
        = fun g => xs.getD g d := by
      funext g
      simp [List.getD_cons_succ]
    rw [List.getD_cons_zero, hc, ih]

/-- Ranging over indices and looking items up is the same as traversing the
list (filterMap version). -/
theorem filterMap_range_getD {α β : Type} (l : List α) (d : α)
    (f : α → Option β) :
    (List.range l.length).filterMap (fun g => f (l.getD g d))
      = l.filterMap f := by
  have h := congrArg (List.filterMap f) (map_range_getD l d)
  rwa [List.filterMap_map] at h

/-- Ranging over indices and looking items up is the same as traversing the
list (flatMap version). -/
theorem flatMap_range_getD {α β : Type} (l : List α) (d : α)
    (f : α → List β) :
    (List.range l.length).flatMap (fun g => f (l.getD g d))
      = l.flatMap f := by
  have h := congrArg (fun l2 => List.flatMap l2 f) (map_range_getD l d)
  simpa [List.flatMap_map] using h

/-- The serialized schedule of the whole fan-out: every goroutine finishes,
events are the launch-order blocks, and the shared `errors` slice collects
exactly the failing goroutines' errors in launch order. -/
theorem fanRun_serial (mkCall : Nat → ApiCall) (errOf : Nat → Err)
    (n : Nat) (failedOf : Nat → Bool) :
    (fanRun mkCall errOf n failedOf (serialSched n failedOf)).shared
        = (List.range n).filterMap
            (fun g => if failedOf g then some (errOf g) else none)
    ∧ (fanRun mkCall errOf n failedOf (serialSched n failedOf)).events
        = (List.range n).flatMap
            (fun g => [Event.tick 3, Event.call (mkCall g)])
    ∧ ∀ g2, (fanRun mkCall errOf n failedOf
        (serialSched n failedOf)).remaining g2 = [] := by
  have h := fanRun_serial_aux mkCall errOf failedOf (List.range n)
    (fanInit n failedOf) (List.nodup_range n)
    (by
      intro g hg
      simp only [List.mem_range] at hg
      simp [fanInit, hg])
  obtain ⟨hsh, hev, hrem⟩ := h
  refine ⟨by simpa [fanRun, fanInit, serialSched] using hsh,
    by simpa [fanRun, fanInit, serialSched] using hev, ?_⟩
  intro g2
  have h2 := hrem g2
  by_cases hg2 : g2 ∈ List.range n
  · simpa [fanRun, serialSched, hg2] using h2
  · have hge : ¬ g2 < n := by simpa [List.mem_range] using hg2
    simpa [fanRun, serialSched, hg2, fanInit, hge] using h2

/-- If the shared slice is empty and no goroutine still has a write step,
no execution ever makes the shared slice non-empty. -/
theorem foldl_fanStep_no_write (mkCall : Nat → ApiCall) (errOf : Nat → Err) :
    ∀ (sched : List Nat) (s : FanState), s.shared = [] →
      (∀ g, GoStep.write ∉ s.remaining g) →
      (List.foldl (fanStep mkCall errOf) s sched).shared = [] := by
  intro sched
  induction sched with
  | nil =>
    intro s h _
    exact h
  | cons a sched ih =>
    intro s hsh hnw
    rw [List.foldl_cons]
    cases hra : s.remaining a with
    | nil =>
      have he : fanStep mkCall errOf s a = s := by simp [fanStep, hra]
      rw [he]
      exact ih s hsh hnw
    | cons st rest =>
      have hwra : GoStep.write ∉ s.remaining a := hnw a
      rw [hra] at hwra
      have hstw : st ≠ GoStep.write := fun he => hwra (he ▸ List.mem_cons_self st rest)
      have hwrest : GoStep.write ∉ rest := fun hm => hwra (List.mem_cons_of_mem st hm)
      have hrem2 : ∀ g, GoStep.write ∉ (fun g2 => if g2 = a then rest else s.remaining g2) g := by
        intro g
        by_cases hg : g = a
        · simpa [hg] using hwrest
        · simpa [hg] using hnw g
      cases st with
      | tick => exact ih _ (by simp [fanStep, hra, hsh]) (by simpa [fanStep, hra] using hrem2)
      | call => exact ih _ (by simp [fanStep, hra, hsh]) (by simpa [fanStep, hra] using hrem2)
      | read => exact ih _ (by simp [fanStep, hra, hsh]) (by simpa [fanStep, hra] using hrem2)
      | write => exact absurd rfl hstw

/-- As long as the shared slice is empty, a failing goroutine's write step
is still pending; contrapositively, once that goroutine has finished, the
shared slice is non-empty. -/
theorem foldl_fanStep_write_pending (mkCall : Nat → ApiCall)
    (errOf : Nat → Err) (g0 : Nat) :
    ∀ (sched : List Nat) (s : FanState),
      (s.shared = [] → GoStep.write ∈ s.remaining g0) →
      (List.foldl (fanStep mkCall errOf) s sched).shared = [] →
      GoStep.write ∈ (List.foldl (fanStep mkCall errOf) s sched).remaining g0 := by
  intro sched
  induction sched with
  | nil =>
    intro s hinv hsh
    exact hinv hsh
  | cons a sched ih =>
    intro s hinv
    rw [List.foldl_cons]
    apply ih
    intro hsh2
    cases hra : s.remaining a with
    | nil =>
      have he : fanStep mkCall errOf s a = s := by simp [fanStep, hra]
      rw [he] at hsh2 ⊢
      exact hinv hsh2
    | cons st rest =>
      cases st with
      | write =>
        have : (fanStep mkCall errOf s a).shared = s.snaps a ++ [errOf a] := by
          simp [fanStep, hra]
        rw [this] at hsh2
        simp at hsh2
      | tick =>
        have hshs : s.shared = [] := by simpa [fanStep, hra] using hsh2
        have hw := hinv hshs
        simp only [fanStep, hra]
        by_cases hg : g0 = a
        · subst hg
          rw [hra] at hw
          have : GoStep.write ∈ rest := by
            rcases List.mem_cons.1 hw with he | hm
            · cases he
            · exact hm
          simpa using this
        · simpa [hg] using hw
      | call =>
        have hshs : s.shared = [] := by simpa [fanStep, hra] using hsh2
        have hw := hinv hshs
        simp only [fanStep, hra]
        by_cases hg : g0 = a
        · subst hg
          rw [hra] at hw
          have : GoStep.write ∈ rest := by
            rcases List.mem_cons.1 hw with he | hm
            · cases he
            · exact hm
          simpa using this
        · simpa [hg] using hw
      | read =>
        have hshs : s.shared = [] := by simpa [fanStep, hra] using hsh2
        have hw := hinv hshs
        simp only [fanStep, hra]
        by_cases hg : g0 = a
        · subst hg
          rw [hra] at hw
          have : GoStep.write ∈ rest := by
            rcases List.mem_cons.1 hw with he | hm
            · cases he
            · exact hm
          simpa using this
        · simpa [hg] using hw

/-- For every completed execution of the fan-out, the shared `errors` slice
ends empty iff no goroutine's call failed. -/
theorem fanRun_error_iff (mkCall : Nat → ApiCall) (errOf : Nat → Err)
    (n : Nat) (failedOf : Nat → Bool) (sched : List Nat)
    (hdone : ∀ g, g < n →
      (fanRun mkCall errOf n failedOf sched).remaining g = []) :
    ((fanRun mkCall errOf n failedOf sched).shared = []
      ↔ ∀ g, g < n → failedOf g = false) := by
  constructor
  · intro hsh g hg
    by_contra hf
    have hf2 : failedOf g = true := by simpa using hf
    have hw := foldl_fanStep_write_pending mkCall errOf g sched
      (fanInit n failedOf)
      (fun _ => by simp [fanInit, hg, goroutineProgram, hf2]) hsh
    have hdone2 : (List.foldl (fanStep mkCall errOf) (fanInit n failedOf)
        sched).remaining g = [] := hdone g hg
    rw [hdone2] at hw
    cases hw
  · intro hok
    apply foldl_fanStep_no_write
    · rfl
    · intro g
      by_cases hg : g < n
      · simp [fanInit, hg, goroutineProgram, hok g hg]
      · simp [fanInit, hg]

/-- Quantifying a predicate over `getD`-lookups at all indices is the same
as quantifying it over the list's members. -/
theorem forall_getD_iff {α : Type} (l : List α) (d : α) (p : α → Prop) :
    (∀ g, g < l.length → p (l.getD g d)) ↔ ∀ a ∈ l, p a := by
  constructor
  · intro h a ha
    obtain ⟨i, hi, rfl⟩ := List.mem_iff_getElem.1 ha
    have h2 := h i hi
    rwa [List.getD_eq_getElem?_getD, List.getElem?_eq_getElem hi,
      Option.getD_some] at h2
  · intro h g hg
    rw [List.getD_eq_getElem?_getD, List.getElem?_eq_getElem hg,
      Option.getD_some]
    exact h _ (List.getElem_mem hg)

/-- Recombining the split failure flag and error value of an optional
failure. -/
theorem isSome_getD_recombine (x : Option Err) :
    (if x.isSome then some (x.getD "") else none) = x := by
  cases x <;> rfl

/-- A failure flag reading `false` means the call succeeded. -/
theorem isSome_false_iff_none (x : Option Err) :
    x.isSome = false ↔ x = none := by
  cases x <;> simp

/-- C4, counterexample to the claim as stated: two messages whose delete
calls both fail, under the completed interleaving in which both goroutines
read the empty `errors` slice before either writes (the C8 race): the run
returns `some ⟨1, "bang"⟩` — "1 errors" — although 2 calls failed, so the
returned error does not report the total number of failed calls. -/
theorem C4_lost_count_counterexample :
    (deleteAllUserMessagesConc
        (fun ts => if ts == "1" then some "boom" else some "bang") "C"
        [SearchMessage.mk "C" "me" "1" [], SearchMessage.mk "C" "me" "2" []]
        [0, 0, 1, 1, 0, 1, 0, 1]).2
      = some (AggError.mk 1 "bang")
    ∧ ([SearchMessage.mk "C" "me" "1" [],
        SearchMessage.mk "C" "me" "2" []].filterMap
        (fun m => if m.timestamp == "1" then some "boom" else some "bang")).length
      = 2
    ∧ ∀ g, g < 2 →
        ((deleteAllUserMessagesConc
          (fun ts => if ts == "1" then some "boom" else some "bang") "C"
          [SearchMessage.mk "C" "me" "1" [], SearchMessage.mk "C" "me" "2" []]
          [0, 0, 1, 1, 0, 1, 0, 1]).1).remaining g = [] := by
  refine ⟨rfl, rfl, ?_⟩
  intro g hg
  match g, hg with
  | 0, _ => rfl
  | 1, _ => rfl

/-- C4, amended: each of the three wipe functions issues exactly one gated
delete/update call per collected item regardless of failures of other items,
and returns an error iff at least one call failed.  The sequential
`deleteAllUserFiles` reports the exact total of failed calls and the first
failure.  For the concurrent `deleteAllUserMessages` /
`redactAllUserMessages` the error-iff-failure equivalence holds for every
completed interleaving, and the exact total and first failure are reported
in interleavings whose unsynchronized error appends do not race — proved
here for the serialized launch-order execution; when two appends race, the
reported count can undercount the failed calls (see the counterexample). -/
theorem C4_error_aggregation_amended :
    (∀ (fail : String → Option Err) (files : List File)
        (remote : String → Bool),
        (deleteAllUserFiles fail files remote).2.2
          = files.flatMap (fun f => [Event.tick 3,
              Event.call (ApiCall.deleteFile f.id)])
        ∧ ((deleteAllUserFiles fail files remote).2.1 = none
            ↔ files.filterMap (fun f => fail f.id) = [])
        ∧ ∀ e rest, files.filterMap (fun f => fail f.id) = e :: rest →
            (deleteAllUserFiles fail files remote).2.1
              = some (AggError.mk (e :: rest).length e))
    ∧ (∀ (fail : String → Option Err) (channelID : String)
        (msgs : List SearchMessage) (sched : List Nat),
        (∀ g, g < msgs.length →
          ((deleteAllUserMessagesConc fail channelID msgs sched).1).remaining g
            = []) →
        ((deleteAllUserMessagesConc fail channelID msgs sched).2 = none
          ↔ msgs.filterMap (fun m => fail m.timestamp) = []))
    ∧ (∀ (fail : String → Option Err) (channelID : String)
        (msgs : List SearchMessage),
        ((deleteAllUserMessagesConc fail channelID msgs
            (serialSched msgs.length (fun g =>
              (fail (msgs.getD g noMessage).timestamp).isSome))).1).events
          = msgs.flatMap (fun m => [Event.tick 3,
              Event.call (ApiCall.deleteMessage channelID m.timestamp)])
        ∧ (deleteAllUserMessagesConc fail channelID msgs
            (serialSched msgs.length (fun g =>
              (fail (msgs.getD g noMessage).timestamp).isSome))).2
          = aggregate (msgs.filterMap (fun m => fail m.timestamp))
        ∧ ∀ e rest, msgs.filterMap (fun m => fail m.timestamp) = e :: rest →
            (deleteAllUserMessagesConc fail channelID msgs
              (serialSched msgs.length (fun g =>
                (fail (msgs.getD g noMessage).timestamp).isSome))).2
              = some (AggError.mk (e :: rest).length e))
    ∧ (∀ (fail : String → List Rune → Option Err) (channelID : String)
        (isSpace isPunct : Rune → Bool) (marker : Rune)
        (msgs : List SearchMessage) (sched : List Nat),
        (∀ g, g < msgs.length →
          ((redactAllUserMessagesConc fail channelID isSpace isPunct marker
            msgs sched).1).remaining g = []) →
        ((redactAllUserMessagesConc fail channelID isSpace isPunct marker
            msgs sched).2 = none
          ↔ msgs.filterMap (fun m =>
              fail m.timestamp (redact isSpace isPunct marker m.text)) = []))
    ∧ (∀ (fail : String → List Rune → Option Err) (channelID : String)
        (isSpace isPunct : Rune → Bool) (marker : Rune)
        (msgs : List SearchMessage),
        ((redactAllUserMessagesConc fail channelID isSpace isPunct marker msgs
            (serialSched msgs.length (fun g =>
              (fail (msgs.getD g noMessage).timestamp
                (redact isSpace isPunct marker
                  (msgs.getD g noMessage).text)).isSome))).1).events
          = msgs.flatMap (fun m => [Event.tick 3,
              Event.call (ApiCall.updateMessage channelID m.timestamp
                (redact isSpace isPunct marker m.text))])
        ∧ (redactAllUserMessagesConc fail channelID isSpace isPunct marker msgs
            (serialSched msgs.length (fun g =>
              (fail (msgs.getD g noMessage).timestamp
                (redact isSpace isPunct marker
                  (msgs.getD g noMessage).text)).isSome))).2
          = aggregate (msgs.filterMap (fun m =>
              fail m.timestamp (redact isSpace isPunct marker m.text)))
        ∧ ∀ e rest,
            msgs.filterMap (fun m =>
              fail m.timestamp (redact isSpace isPunct marker m.text))
              = e :: rest →
            (redactAllUserMessagesConc fail channelID isSpace isPunct marker
              msgs (serialSched msgs.length (fun g =>
                (fail (msgs.getD g noMessage).timestamp
                  (redact isSpace isPunct marker
                    (msgs.getD g noMessage).text)).isSome))).2
              = some (AggError.mk (e :: rest).length e)) := by
  refine ⟨?_, ?_, ?_, ?_, ?_⟩
  · intro fail files remote
    refine ⟨?_, ?_, ?_⟩
    · simpa [deleteAllUserFiles] using wipeLoop_events _ _ _ files remote
    · rw [show (deleteAllUserFiles fail files remote).2.1
          = aggregate ((wipeLoop (fun f => ApiCall.deleteFile f.id)
              (fun f => fail f.id)
              (fun f s => fun fid => if fid == f.id then false else s fid)
              files remote).2.1) from rfl, wipeLoop_errs]
      exact (aggregate_spec _).1
    · intro e rest h
      rw [show (deleteAllUserFiles fail files remote).2.1
          = aggregate ((wipeLoop (fun f => ApiCall.deleteFile f.id)
              (fun f => fail f.id)
              (fun f s => fun fid => if fid == f.id then false else s fid)
              files remote).2.1) from rfl, wipeLoop_errs]
      exact (aggregate_spec _).2 e rest h
  · intro fail channelID msgs sched hdone
    have hiff := fanRun_error_iff
      (fun g => ApiCall.deleteMessage channelID (msgs.getD g noMessage).timestamp)
      (fun g => (fail (msgs.getD g noMessage).timestamp).getD "")
      msgs.length
      (fun g => (fail (msgs.getD g noMessage).timestamp).isSome)
      sched hdone
    refine ((aggregate_spec _).1.trans (hiff.trans ?_))
    refine (forall_congr' fun g => imp_congr_right fun _ =>
      isSome_false_iff_none _).trans ?_
    exact (forall_getD_iff msgs noMessage
      (fun m => fail m.timestamp = none)).trans List.filterMap_eq_nil_iff.symm
  · intro fail channelID msgs
    obtain ⟨hsh, hev, hrem⟩ := fanRun_serial
      (fun g => ApiCall.deleteMessage channelID (msgs.getD g noMessage).timestamp)
      (fun g => (fail (msgs.getD g noMessage).timestamp).getD "")
      msgs.length
      (fun g => (fail (msgs.getD g noMessage).timestamp).isSome)
    have hagg : (deleteAllUserMessagesConc fail channelID msgs
        (serialSched msgs.length (fun g =>
          (fail (msgs.getD g noMessage).timestamp).isSome))).2
        = aggregate (msgs.filterMap (fun m => fail m.timestamp)) := by
      show aggregate _ = _
      rw [hsh]
      congr 1
      rw [congrArg (fun f => List.filterMap f (List.range msgs.length))
        (funext fun g => isSome_getD_recombine
          (fail (msgs.getD g noMessage).timestamp))]
      exact filterMap_range_getD msgs noMessage (fun m => fail m.timestamp)
    refine ⟨?_, hagg, ?_⟩
    · show (fanRun _ _ _ _ _).events = _
      rw [hev]
      exact flatMap_range_getD msgs noMessage (fun m => [Event.tick 3,
        Event.call (ApiCall.deleteMessage channelID m.timestamp)])
    · intro e rest h
      rw [hagg]
      exact (aggregate_spec _).2 e rest h
  · intro fail channelID isSpace isPunct marker msgs sched hdone
    have hiff := fanRun_error_iff
      (fun g => ApiCall.updateMessage channelID (msgs.getD g noMessage).timestamp
        (redact isSpace isPunct marker (msgs.getD g noMessage).text))
      (fun g => (fail (msgs.getD g noMessage).timestamp
        (redact isSpace isPunct marker (msgs.getD g noMessage).text)).getD "")
      msgs.length
      (fun g => (fail (msgs.getD g noMessage).timestamp
        (redact isSpace isPunct marker (msgs.getD g noMessage).text)).isSome)
      sched hdone
    refine ((aggregate_spec _).1.trans (hiff.trans ?_))
    refine (forall_congr' fun g => imp_congr_right fun _ =>
      isSome_false_iff_none _).trans ?_
    exact (forall_getD_iff msgs noMessage
      (fun m => fail m.timestamp (redact isSpace isPunct marker m.text)
        = none)).trans List.filterMap_eq_nil_iff.symm
  · intro fail channelID isSpace isPunct marker msgs
    obtain ⟨hsh, hev, hrem⟩ := fanRun_serial
      (fun g => ApiCall.updateMessage channelID (msgs.getD g noMessage).timestamp
        (redact isSpace isPunct marker (msgs.getD g noMessage).text))
      (fun g => (fail (msgs.getD g noMessage).timestamp
        (redact isSpace isPunct marker (msgs.getD g noMessage).text)).getD "")
      msgs.length
      (fun g => (fail (msgs.getD g noMessage).timestamp
        (redact isSpace isPunct marker (msgs.getD g noMessage).text)).isSome)
    have hagg : (redactAllUserMessagesConc fail channelID isSpace isPunct
        marker msgs (serialSched msgs.length (fun g =>
          (fail (msgs.getD g noMessage).timestamp
            (redact isSpace isPunct marker
              (msgs.getD g noMessage).text)).isSome))).2
        = aggregate (msgs.filterMap (fun m =>
            fail m.timestamp (redact isSpace isPunct marker m.text))) := by
      show aggregate _ = _
      rw [hsh]
      congr 1
      rw [congrArg (fun f => List.filterMap f (List.range msgs.length))
        (funext fun g => isSome_getD_recombine
          (fail (msgs.getD g noMessage).timestamp
            (redact isSpace isPunct marker (msgs.getD g noMessage).text)))]
      exact filterMap_range_getD msgs noMessage (fun m =>
        fail m.timestamp (redact isSpace isPunct marker m.text))
    refine ⟨?_, hagg, ?_⟩
    · show (fanRun _ _ _ _ _).events = _
      rw [hev]
      exact flatMap_range_getD msgs noMessage (fun m => [Event.tick 3,
        Event.call (ApiCall.updateMessage channelID m.timestamp
          (redact isSpace isPunct marker m.text))])
    · intro e rest h
      rw [hagg]
      exact (aggregate_spec _).2 e rest h

/-- Witness for C4's amended theorem at concrete inputs: a completed
two-goroutine run with one failing call returns an error, and the
serialized run with two failing calls reports both and the first. -/
theorem C4_error_aggregation_amended_witness :
    (deleteAllUserMessagesConc
        (fun ts => if ts == "1" then some "boom" else none) "C"
        [SearchMessage.mk "C" "me" "1" [], SearchMessage.mk "C" "me" "2" []]
        [0, 0, 0, 0, 1, 1]).2 ≠ none
    ∧ (deleteAllUserMessagesConc
        (fun ts => if ts == "1" then some "boom" else some "bang") "C"
        [SearchMessage.mk "C" "me" "1" [], SearchMessage.mk "C" "me" "2" []]
        (serialSched 2 (fun g =>
          ((fun ts => if ts == "1" then some "boom" else some "bang")
            (([SearchMessage.mk "C" "me" "1" [],
               SearchMessage.mk "C" "me" "2" []].getD g noMessage)).timestamp).isSome))).2
      = some (AggError.mk 2 "boom") := by
  constructor
  · intro hc
    have h2 := C4_error_aggregation_amended.2.1
      (fun ts => if ts == "1" then some "boom" else none) "C"
      [SearchMessage.mk "C" "me" "1" [], SearchMessage.mk "C" "me" "2" []]
      [0, 0, 0, 0, 1, 1]
      (by
        intro g hg
        match g, hg with
        | 0, _ => rfl
        | 1, _ => rfl)
    exact absurd (h2.mp hc) (by decide)
  · have h3 := C4_error_aggregation_amended.2.2.1
      (fun ts => if ts == "1" then some "boom" else some "bang") "C"
      [SearchMessage.mk "C" "me" "1" [], SearchMessage.mk "C" "me" "2" []]
    exact h3.2.1.trans (by decide)

end SlackWipe

namespace SlackWipe

/-- C5, counterexample to the claim as stated: when every search response is
successful and reports page count `P = 0` (an empty result set), the claim
predicts one `SearchMessages` call per page `1 … 0`, i.e. none at all, but
`fetchMessages` has already issued the page-1 call that elicited that
response: the trace contains one search call, not zero. -/
theorem C5_page_zero_counterexample :
    (fetchMessages (fun _ => Except.ok (SearchResp.mk [] 0)) "me" 0).2
      = [Event.tick 2, Event.call (ApiCall.searchMessages 1)]
    ∧ (List.range' 1 0).flatMap
        (fun p => [Event.tick 2, Event.call (ApiCall.searchMessages p)])
      = [] := by
  exact ⟨rfl, rfl⟩

/-- C5, amended: for every sequence of successful responses all reporting
the same page count `P` with `P ≥ 1`, `fetchMessages` issues one gated
`SearchMessages` call per page `1 … P`, in order, and stores the in-order
concatenation of all pages' matches filtered to the authenticated user
(when `P = 0` the page-1 call, needed to obtain the page count, is still
issued); likewise `fetchFiles` with `paging.Pages = P ≥ 1` issues one gated
`GetFiles` call per page `1 … P` and stores the unfiltered concatenation;
and if any page request fails, each function returns that error. -/
theorem C5_pagination :
    (∀ (api : Nat → Except Err SearchResp) (M : Nat → List SearchMessage)
        (uid : String) (P fuel : Nat), 1 ≤ P → P ≤ fuel + 1 →
        (∀ p, 1 ≤ p → p ≤ P → api p = Except.ok (SearchResp.mk (M p) P)) →
        fetchMessages api uid fuel
          = (some (Except.ok (((List.range' 1 P).flatMap M).filter
              (fun m => m.user == uid))),
             (List.range' 1 P).flatMap
               (fun p => [Event.tick 2, Event.call (ApiCall.searchMessages p)])))
    ∧ (∀ (api : Nat → Except Err FileResp) (F : Nat → List File)
        (P fuel : Nat), 1 ≤ P → P ≤ fuel + 1 →
        (∀ p, 1 ≤ p → p ≤ P → api p = Except.ok (FileResp.mk (F p) (some P))) →
        fetchFiles api fuel
          = (some (Except.ok ((List.range' 1 P).flatMap F)),
             (List.range' 1 P).flatMap
               (fun p => [Event.tick 3, Event.call (ApiCall.getFiles p)])))
    ∧ (∀ (api : Nat → Except Err SearchResp) (M : Nat → List SearchMessage)
        (uid : String) (P k fuel : Nat) (e : Err), 1 ≤ k → k ≤ P →
        k ≤ fuel + 1 →
        (∀ p, 1 ≤ p → p < k → api p = Except.ok (SearchResp.mk (M p) P)) →
        api k = Except.error e →
        (fetchMessages api uid fuel).1 = some (Except.error e))
    ∧ (∀ (api : Nat → Except Err FileResp) (F : Nat → List File)
        (P k fuel : Nat) (e : Err), 1 ≤ k → k ≤ P → k ≤ fuel + 1 →
        (∀ p, 1 ≤ p → p < k → api p = Except.ok (FileResp.mk (F p) (some P))) →
        api k = Except.error e →
        (fetchFiles api fuel).1 = some (Except.error e)) := by
  refine ⟨?_, ?_, ?_, ?_⟩
  · intro api M uid P fuel h1 h2 h3
    exact fetchMessages_const api M uid P fuel h1 h2 h3
  · intro api F P fuel h1 h2 h3
    exact fetchFiles_const api F P fuel h1 h2 h3
  · intro api M uid P k fuel e h1 h2 h3 h4 h5
    exact fetchMessages_error api M uid P k fuel e h1 h2 h3 h4 h5
  · intro api F P k fuel e h1 h2 h3 h4 h5
    exact fetchFiles_error api F P k fuel e h1 h2 h3 h4 h5

/-- Witness for C5 at a concrete input: two empty pages both reporting page
count 2 produce two gated search calls, one per page. -/
theorem C5_pagination_witness :
    fetchMessages (fun _ => Except.ok (SearchResp.mk [] 2)) "me" 1
      = (some (Except.ok []),
         [Event.tick 2, Event.call (ApiCall.searchMessages 1),
          Event.tick 2, Event.call (ApiCall.searchMessages 2)]) := by
  have h := C5_pagination.1 (fun _ => Except.ok (SearchResp.mk [] 2))
    (fun _ => []) "me" 2 1 (by decide) (by decide) (fun p h1 h2 => rfl)
  simpa using h

/-- C6, counterexample to the claim as stated: `fetchUsers` (unnamed
variant) issues its `GetUsers` call with no preceding ticker receive, so its
trace is not rate-gated. -/
theorem C6_getUsers_ungated_counterexample :
    (fetchUsers (Except.ok [])).2 = [Event.call ApiCall.getUsers]
    ∧ rateGated (fetchUsers (Except.ok [])).2 = false := by
  exact ⟨rfl, rfl⟩

/-- C6, amended: every remote API call made by the program, EXCEPT the
`GetUsers` call in the unnamed variant's `fetchUsers`, is immediately
preceded by a receive from one of the fixed-interval rate-limit tickers
(tier 2 = 20/min for `GetConversations`, `SearchMessages`,
`GetConversationHistory`; tier 3 = 50/min for `AuthTest`, `GetFiles`,
`DeleteMessage`, `DeleteFile`, `UpdateMessage`; tier 4 = 100/min for
`GetUsersInConversation`), for every response sequence and fuel. -/
theorem C6_rate_gated :
    (∀ (api : String → Except Err (List Channel × String)) (fuel : Nat),
        rateGated (getAllConversations api fuel).2 = true)
    ∧ (∀ (api : String → Except Err (List String × String)) (fuel : Nat),
        rateGated (usersInConversation api fuel).2 = true)
    ∧ (∀ api : Except Err AuthIdentity,
        rateGated (fetchUserInfo api).2 = true)
    ∧ (∀ (api : Nat → Except Err SearchResp) (uid : String) (fuel : Nat),
        rateGated (fetchMessages api uid fuel).2 = true)
    ∧ (∀ (api : Nat → Except Err FileResp) (fuel : Nat),
        rateGated (fetchFiles api fuel).2 = true)
    ∧ (∀ (api : String → Except Err HistoryResp) (cid uid : String)
        (fuel : Nat),
        rateGated (fetchDirectMessages api cid uid fuel).2 = true)
    ∧ (∀ (fail : String → Option Err) (channelID : String)
        (msgs : List SearchMessage) (remote : String → Bool),
        rateGated (deleteAllUserMessages fail channelID msgs remote).2.2 = true)
    ∧ (∀ (updFail : String → List Rune → Option Err) (channelID : String)
        (isSpace isPunct : Rune → Bool) (marker : Rune)
        (msgs : List SearchMessage) (remote : String → Option (List Rune)),
        rateGated
          (redactAllUserMessages updFail channelID isSpace isPunct marker
            msgs remote).2.2 = true)
    ∧ (∀ (fail : String → Option Err) (files : List File)
        (remote : String → Bool),
        rateGated (deleteAllUserFiles fail files remote).2.2 = true) := by
  refine ⟨?_, ?_, ?_, ?_, ?_, ?_, ?_, ?_, ?_⟩
  · intro api fuel
    exact rateGatedAux_cursorLoop 2 ApiCall.getConversations api fuel "" [] false
  · intro api fuel
    exact rateGatedAux_cursorLoop 4 ApiCall.getUsersInConversation api fuel "" [] false
  · intro api
    rfl
  · intro api uid fuel
    cases hapi : api 1 with
    | error e => simp [fetchMessages, hapi, rateGated, rateGatedAux]
    | ok resp =>
      simp only [fetchMessages, hapi, rateGated]
      rw [rateGatedAux_tick_call]
      exact rateGatedAux_fetchMessagesLoop api fuel 2 resp.pageCount resp.pageMatches false
  · intro api fuel
    cases hapi : api 1 with
    | error e => simp [fetchFiles, hapi, rateGated, rateGatedAux]
    | ok resp =>
      simp only [fetchFiles, hapi, rateGated]
      rw [rateGatedAux_tick_call]
      exact rateGatedAux_fetchFilesLoop api fuel 2 _ resp.files false
  · intro api cid uid fuel
    cases hapi : api "" with
    | error e => simp [fetchDirectMessages, hapi, rateGated, rateGatedAux]
    | ok hist =>
      simp only [fetchDirectMessages, hapi, rateGated]
      rw [rateGatedAux_tick_call]
      exact rateGatedAux_fetchDirectMessagesLoop api cid uid fuel hist [] false
  · intro fail channelID msgs remote
    have h : (deleteAllUserMessages fail channelID msgs remote).2.2
        = msgs.flatMap (fun m => [Event.tick 3,
            Event.call (ApiCall.deleteMessage channelID m.timestamp)]) := by
      simpa [deleteAllUserMessages] using wipeLoop_events _ _ _ msgs remote
    rw [rateGated, h]
    exact rateGatedAux_flatMap_blocks 3 _ msgs false
  · intro updFail channelID isSpace isPunct marker msgs remote
    have h : (redactAllUserMessages updFail channelID isSpace isPunct marker
          msgs remote).2.2
        = msgs.flatMap (fun m => [Event.tick 3,
            Event.call (ApiCall.updateMessage channelID m.timestamp
              (redact isSpace isPunct marker m.text))]) := by
      simpa [redactAllUserMessages] using wipeLoop_events _ _ _ msgs remote
    rw [rateGated, h]
    exact rateGatedAux_flatMap_blocks 3 _ msgs false
  · intro fail files remote
    have h : (deleteAllUserFiles fail files remote).2.2
        = files.flatMap (fun f => [Event.tick 3,
            Event.call (ApiCall.deleteFile f.id)]) := by
      simpa [deleteAllUserFiles] using wipeLoop_events _ _ _ files remote
    rw [rateGated, h]
    exact rateGatedAux_flatMap_blocks 3 _ files false

end SlackWipe

namespace SlackWipe

/-- C7: the delete phase is not atomic.  Whenever some delete call fails,
the calls for all remaining items are still attempted (the trace contains
one call per item), the error is reported afterwards, and every item whose
own call succeeded stays deleted in the remote state — no rollback exists.
Stated for `deleteAllUserFiles` and `deleteAllUserMessages`. -/
theorem C7_no_rollback :
    (∀ (fail : String → Option Err) (files : List File)
        (remote : String → Bool) (f : File) (e : Err),
        f ∈ files → fail f.id = some e →
        (deleteAllUserFiles fail files remote).2.2
          = files.flatMap (fun g => [Event.tick 3,
              Event.call (ApiCall.deleteFile g.id)])
        ∧ ((deleteAllUserFiles fail files remote).2.1).isSome = true
        ∧ ∀ g ∈ files, fail g.id = none →
            (deleteAllUserFiles fail files remote).1 g.id = false)
    ∧ (∀ (fail : String → Option Err) (channelID : String)
        (msgs : List SearchMessage) (remote : String → Bool)
        (m : SearchMessage) (e : Err),
        m ∈ msgs → fail m.timestamp = some e →
        (deleteAllUserMessages fail channelID msgs remote).2.2
          = msgs.flatMap (fun g => [Event.tick 3,
              Event.call (ApiCall.deleteMessage channelID g.timestamp)])
        ∧ ((deleteAllUserMessages fail channelID msgs remote).2.1).isSome = true
        ∧ ∀ g ∈ msgs, fail g.timestamp = none →
            (deleteAllUserMessages fail channelID msgs remote).1 g.timestamp
              = false) := by
  constructor
  · intro fail files remote f e hf hfail
    refine ⟨?_, ?_, ?_⟩
    · simpa [deleteAllUserFiles] using wipeLoop_events _ _ _ files remote
    · have herr : (deleteAllUserFiles fail files remote).2.1
          = aggregate (files.filterMap (fun g => fail g.id)) := by
        simpa [deleteAllUserFiles] using
          congrArg aggregate (wipeLoop_errs _ _ _ files remote)
      rw [herr]
      have hmem : e ∈ files.filterMap (fun g => fail g.id) :=
        List.mem_filterMap.2 ⟨f, hf, hfail⟩
      cases hcase : files.filterMap (fun g => fail g.id) with
      | nil => rw [hcase] at hmem; cases hmem
      | cons x xs => simp [aggregate]
    · intro g hg hsucc
      have hstate : (deleteAllUserFiles fail files remote).1
          = files.foldl
              (fun st x => match fail x.id with
                | none => fun k2 => if k2 == x.id then false else st k2
                | some _ => st) remote := by
        simpa [deleteAllUserFiles] using wipeLoop_state _ _ _ files remote
      rw [hstate]
      exact wipeFold_deletes (fun x => x.id) (fun x => fail x.id) files
        remote g hg hsucc
  · intro fail channelID msgs remote m e hm hfail
    refine ⟨?_, ?_, ?_⟩
    · simpa [deleteAllUserMessages] using wipeLoop_events _ _ _ msgs remote
    · have herr : (deleteAllUserMessages fail channelID msgs remote).2.1
          = aggregate (msgs.filterMap (fun g => fail g.timestamp)) := by
        simpa [deleteAllUserMessages] using
          congrArg aggregate (wipeLoop_errs _ _ _ msgs remote)
      rw [herr]
      have hmem : e ∈ msgs.filterMap (fun g => fail g.timestamp) :=
        List.mem_filterMap.2 ⟨m, hm, hfail⟩
      cases hcase : msgs.filterMap (fun g => fail g.timestamp) with
      | nil => rw [hcase] at hmem; cases hmem
      | cons x xs => simp [aggregate]
    · intro g hg hsucc
      have hstate : (deleteAllUserMessages fail channelID msgs remote).1
          = msgs.foldl
              (fun st x => match fail x.timestamp with
                | none => fun k2 => if k2 == x.timestamp then false else st k2
                | some _ => st) remote := by
        simpa [deleteAllUserMessages] using wipeLoop_state _ _ _ msgs remote
      rw [hstate]
      exact wipeFold_deletes (fun x => x.timestamp)
        (fun x => fail x.timestamp) msgs remote g hg hsucc

/-- Witness for C7 at a concrete input: two files where the first delete
call fails and the second succeeds; the run reports an error, yet the second
file is gone from the remote state. -/
theorem C7_no_rollback_witness :
    ((deleteAllUserFiles (fun fid => if fid == "f1" then some "boom" else none)
        [File.mk "f1" "me", File.mk "f2" "me"] (fun _ => true)).2.1).isSome = true
    ∧ (deleteAllUserFiles (fun fid => if fid == "f1" then some "boom" else none)
        [File.mk "f1" "me", File.mk "f2" "me"] (fun _ => true)).1 "f2" = false := by
  have h := C7_no_rollback.1
    (fun fid => if fid == "f1" then some "boom" else none)
    [File.mk "f1" "me", File.mk "f2" "me"] (fun _ => true)
    (File.mk "f1" "me") "boom" (by simp) (by decide)
  exact ⟨h.2.1, h.2.2 (File.mk "f2" "me") (by simp) (by decide)⟩

/-- C8: the goroutines of the delete/redact fan-out append to one shared
`errors` slice with no mutex — an append is a read of the shared slice value
followed by a write of the extended slice.  For two concurrently failing
calls there is a valid interleaving of the two goroutines' read and write
steps after which only one of the two errors is recorded: goroutine 2's
write, based on its stale read, overwrites goroutine 1's append. -/
theorem C8_racy_error_append (e1 e2 : Err) :
    ∃ sched : List RaceStep,
      validInterleaving sched = true
      ∧ raceRun e1 e2 sched = [e2]
      ∧ (raceRun e1 e2 sched).length = 1 := by
  refine ⟨[RaceStep.read false, RaceStep.read true,
           RaceStep.write false, RaceStep.write true], by decide, rfl, rfl⟩

end SlackWipe

namespace SlackWipe

/-- C9: every config field present in the JSON file overwrites the value
supplied on the command line, fields absent from the JSON keep their
command-line values, and `Path` (tagged `json:"-"`) can never be set from
the file. -/
theorem C9_config_file_overrides (c : Config) (j : ConfigJSON) :
    (∀ v, j.channel = some v → (decodeConfigInto c j).channel = v)
    ∧ (j.channel = none → (decodeConfigInto c j).channel = c.channel)
    ∧ (∀ v, j.userID = some v → (decodeConfigInto c j).userID = v)
    ∧ (j.userID = none → (decodeConfigInto c j).userID = c.userID)
    ∧ (∀ v, j.token = some v → (decodeConfigInto c j).token = v)
    ∧ (j.token = none → (decodeConfigInto c j).token = c.token)
    ∧ (∀ v, j.wipeMessages = some v → (decodeConfigInto c j).wipeMessages = v)
    ∧ (j.wipeMessages = none → (decodeConfigInto c j).wipeMessages = c.wipeMessages)
    ∧ (∀ v, j.wipeFiles = some v → (decodeConfigInto c j).wipeFiles = v)
    ∧ (j.wipeFiles = none → (decodeConfigInto c j).wipeFiles = c.wipeFiles)
    ∧ (∀ v, j.autoApprove = some v → (decodeConfigInto c j).autoApprove = v)
    ∧ (j.autoApprove = none → (decodeConfigInto c j).autoApprove = c.autoApprove)
    ∧ (∀ v, j.redact = some v → (decodeConfigInto c j).redact = v)
    ∧ (j.redact = none → (decodeConfigInto c j).redact = c.redact)
    ∧ (∀ v, j.redactMarker = some v → (decodeConfigInto c j).redactMarker = v)
    ∧ (j.redactMarker = none → (decodeConfigInto c j).redactMarker = c.redactMarker)
    ∧ (decodeConfigInto c j).path = c.path := by
  refine ⟨?_, ?_, ?_, ?_, ?_, ?_, ?_, ?_, ?_, ?_, ?_, ?_, ?_, ?_, ?_, ?_, rfl⟩
  all_goals
    first
    | (intro v h; simp [decodeConfigInto, h])
    | (intro h; simp [decodeConfigInto, h])

/-- Witness for C9 at a concrete input: a JSON file setting only `channel`
overrides the flag value of `channel` and keeps the flag value of `token`. -/
theorem C9_config_file_overrides_witness :
    (decodeConfigInto
        (Config.mk "cli-chan" "" "tok" false false "slack-wipe.json" false
          false defaultRedactMarker)
        (ConfigJSON.mk (some "file-chan") none none none none none none
          none)).channel = "file-chan"
    ∧ (decodeConfigInto
        (Config.mk "cli-chan" "" "tok" false false "slack-wipe.json" false
          false defaultRedactMarker)
        (ConfigJSON.mk (some "file-chan") none none none none none none
          none)).token = "tok" := by
  refine ⟨?_, ?_⟩
  · exact (C9_config_file_overrides
      (Config.mk "cli-chan" "" "tok" false false "slack-wipe.json" false
        false defaultRedactMarker)
      (ConfigJSON.mk (some "file-chan") none none none none none none
        none)).1 "file-chan" rfl
  · exact (C9_config_file_overrides
      (Config.mk "cli-chan" "" "tok" false false "slack-wipe.json" false
        false defaultRedactMarker)
      (ConfigJSON.mk (some "file-chan") none none none none none none
        none)).2.2.2.2.2.1 rfl

/-- C10: for every token of length at least 9, the fingerprint slicing
`token[:8]`, `token[len(token)-9:]` does not panic; every non-empty token
shorter than 9 bytes passes the init-time `-token is required` check, yet
the slicing panics with an out-of-range index, terminating `main` before
any wipe action. -/
theorem C10_token_fingerprint (token : List Char) :
    (9 ≤ token.length → (tokenFingerprint token).isSome = true)
    ∧ (1 ≤ token.length → token.length < 9 →
        tokenRequiredCheck token = true
        ∧ tokenFingerprint token = none
        ∧ ∀ wipeEvents : List Event,
            mainFromFingerprint token wipeEvents
              = [MainEvent.panicSliceOutOfRange]) := by
  constructor
  · intro h
    have h1 : (0 : Int) ≤ 8 ∧ (8 : Int) ≤ (token.length : Int) := by
      constructor <;> omega
    have h2 : (0 : Int) ≤ (token.length : Int) - 9
        ∧ (token.length : Int) - 9 ≤ (token.length : Int) := by
      constructor <;> omega
    unfold tokenFingerprint goSliceTo goSliceFrom
    rw [if_pos h1, if_pos h2]
    rfl
  · intro hlen1 hlen9
    have hnone : tokenFingerprint token = none := by
      have h2 : goSliceFrom token ((token.length : Int) - 9) = none := by
        unfold goSliceFrom
        rw [if_neg]
        intro hc
        omega
      unfold tokenFingerprint
      rw [h2]
      cases goSliceTo token 8 <;> rfl
    refine ⟨?_, hnone, ?_⟩
    · cases token with
      | nil => simp at hlen1
      | cons c cs => rfl
    · intro wipeEvents
      unfold mainFromFingerprint
      rw [hnone]

/-- Witness for C10 at concrete inputs: a 9-byte token fingerprints without
panic, and a 3-byte token (which passes the `-token is required` check)
panics before any wipe action. -/
theorem C10_token_fingerprint_witness :
    (tokenFingerprint (String.toList "abcdefghi")).isSome = true
    ∧ tokenRequiredCheck (String.toList "abc") = true
    ∧ tokenFingerprint (String.toList "abc") = none
    ∧ mainFromFingerprint (String.toList "abc") []
        = [MainEvent.panicSliceOutOfRange] := by
  have h2 := (C10_token_fingerprint (String.toList "abc")).2
    (by decide) (by decide)
  exact ⟨(C10_token_fingerprint (String.toList "abcdefghi")).1 (by decide),
    h2.1, h2.2.1, h2.2.2 []⟩

end SlackWipe
